import Mathlib

/-!
# Store rating service: the validation, identity, rating and listing layer

A shallow embedding of `backend/server.js`.

* JavaScript strings are sequences of UTF-16 code units (`JSString`); `length` is the
  number of code units and a regular expression without the `u` flag consumes one code
  unit at a time.  Database text is modelled by the same sequences.
* The three tables are lists of rows; `SERIAL` columns draw their value from a sequence
  kept in the state, and a statement that violates a constraint raises an error.
* A handler is a function from the state before the request to a reply and the state
  after it.  The clock value read by `CURRENT_TIMESTAMP` is an argument of the handler.
* Library primitives (`bcrypt`, `String.prototype.toUpperCase`, the database collation
  and case folding, the server's reading of a text argument as an integer) are fields of an
  environment record.
* `AVG` returns a value of the database type `numeric`: a decimal number with a scale,
  obtained by rounding the quotient of the sum by the count.
-/

namespace StoreRating

/-! ## JavaScript strings -/

/-- A JavaScript string: its UTF-16 code units. -/
abbrev JSString := List Nat

/-- The code units of a literal made of characters of the Basic Multilingual Plane. -/
def js (s : String) : JSString := s.toList.map Char.toNat

/-! ## Regular expressions

The fragment of the regular expression language used by the validators: character
classes, bounded and unbounded repetition of a class, sequencing, positive lookahead and
the end-of-input assertion.  `rests r s` lists the remainders of `s` after every way of
matching `r` at the start of `s`, in backtracking order. -/

/-- Regular expressions over code units. -/
inductive Rx where
  /-- One code unit of a class, such as `[A-Z]`, `@` or `.`. -/
  | cls (p : Nat → Bool)
  /-- Greedy repetition of a class, `c{lo,hi}`; `hi = none` for `c*` and `c+`. -/
  | rep (p : Nat → Bool) (lo : Nat) (hi : Option Nat)
  /-- Concatenation. -/
  | seq (a b : Rx)
  /-- Positive lookahead `(?=r)`. -/
  | ahead (r : Rx)
  /-- The assertion `$` (no `m` flag): end of input. -/
  | eoi

/-- Remainders of `s` after matching `c{lo,hi}`: drop `k` code units of the class for
every admissible `k`, the longest first. -/
def repRests (p : Nat → Bool) (lo : Nat) (hi : Option Nat) (s : JSString) : List JSString :=
  (((List.range ((s.takeWhile p).length + 1)).filter
      (fun k => decide (lo ≤ k) && (match hi with | none => true | some h => decide (k ≤ h)))).reverse).map
    (fun k => s.drop k)

/-- Remainders of `s` after every match of `r` at the start of `s`. -/
def rests : Rx → JSString → List JSString
  | .cls p, s =>
    match s with
    | [] => []
    | c :: t => if p c then [t] else []
  | .rep p lo hi, s => repRests p lo hi s
  | .seq a b, s => (rests a s).flatMap (rests b)
  | .ahead r, s => if (rests r s).isEmpty then [] else [s]
  | .eoi, s => if s.isEmpty then [s] else []

/-- Semantics of `/^r/.test(s)`: some match of `r` starts at position 0. -/
def Rx.test (r : Rx) (s : JSString) : Bool := !(rests r s).isEmpty

/-- Line terminators, which `.` does not match: LF, CR, U+2028, U+2029. -/
def isLineTerminator (c : Nat) : Bool := c == 10 || c == 13 || c == 8232 || c == 8233

/-- The class `.` (no `s` flag). -/
def dot (c : Nat) : Bool := !isLineTerminator c

/-- The class `[A-Z]`. -/
def isUpperAZ (c : Nat) : Bool := decide (65 ≤ c) && decide (c ≤ 90)

/-- The class `[!@#$%^&*]`. -/
def isSpecial (c : Nat) : Bool :=
  c == 33 || c == 64 || c == 35 || c == 36 || c == 37 || c == 94 || c == 38 || c == 42

/-- The class `\s`: white space and line terminators. -/
def isSpace (c : Nat) : Bool :=
  c == 9 || c == 10 || c == 11 || c == 12 || c == 13 || c == 32 || c == 160 || c == 5760 ||
  (decide (8192 ≤ c) && decide (c ≤ 8202)) || c == 8232 || c == 8233 || c == 8239 ||
  c == 8287 || c == 12288 || c == 65279

/-- The class `[^\s@]`. -/
def notSpaceAt (c : Nat) : Bool := !(isSpace c || c == 64)

/-! ## Validation functions -/

/-- The expression `^[^\s@]+@[^\s@]+\.[^\s@]+$`. -/
def emailRx : Rx :=
  .seq (.rep notSpaceAt 1 none) (.seq (.cls (· == 64)) (.seq (.rep notSpaceAt 1 none)
    (.seq (.cls (· == 46)) (.seq (.rep notSpaceAt 1 none) .eoi))))

/-- The expression `^(?=.*[A-Z])(?=.*[!@#$%^&*]).{8,16}$`. -/
def passwordRx : Rx :=
  .seq (.ahead (.seq (.rep dot 0 none) (.cls isUpperAZ)))
    (.seq (.ahead (.seq (.rep dot 0 none) (.cls isSpecial)))
      (.seq (.rep dot 8 (some 16)) .eoi))

/-- `validateEmail`. -/
def validateEmail (email : JSString) : Bool := emailRx.test email

/-- `validatePassword`. -/
def validatePassword (password : JSString) : Bool := passwordRx.test password

/-- `validateName`: `name && name.length >= 20 && name.length <= 60`. -/
def validateName (name : JSString) : Bool :=
  !name.isEmpty && decide (name.length ≥ 20) && decide (name.length ≤ 60)

/-- `validateAddress`: `address && address.length <= 400`. -/
def validateAddress (address : JSString) : Bool :=
  !address.isEmpty && decide (address.length ≤ 400)

/-! ## JavaScript values of a request body -/

/-- A JavaScript number.  Finite values are kept as exact rationals; every double is one, and
comparison of doubles is comparison of the rationals they denote. -/
inductive JSNumber where
  | nan
  | finite (q : ℚ)
  | posInf
  | negInf
  deriving DecidableEq

/-- The primitive values a JSON body field can hold, and `undefined` for a missing field.
Strings, arrays and objects, whose conversion to a number goes through the numeric literal
grammar, are left out of the model. -/
inductive JSValue where
  | undefined
  | null
  | boolean (b : Bool)
  | number (x : JSNumber)
  deriving DecidableEq

/-- `ToBoolean`. -/
def JSValue.truthy : JSValue → Bool
  | .undefined => false
  | .null => false
  | .boolean b => b
  | .number .nan => false
  | .number (.finite q) => decide (q ≠ 0)
  | .number _ => true

/-- `ToNumber`. -/
def JSValue.toNumber : JSValue → JSNumber
  | .undefined => .nan
  | .null => .finite 0
  | .boolean b => .finite (if b then 1 else 0)
  | .number x => x

/-- The relation `a < b` on numbers; false as soon as one side is `NaN`. -/
def JSNumber.lt : JSNumber → JSNumber → Bool
  | .nan, _ => false
  | _, .nan => false
  | .negInf, .negInf => false
  | .negInf, _ => true
  | _, .negInf => false
  | .posInf, _ => false
  | .finite _, .posInf => true
  | .finite a, .finite b => decide (a < b)

/-- The guard of `POST /api/ratings`: `!rating || rating < 1 || rating > 5`. -/
def ratingRejected (rating : JSValue) : Bool :=
  !rating.truthy || rating.toNumber.lt (.finite 1) || (JSNumber.finite 5).lt rating.toNumber

/-- The value the database reads from a query argument bound to an `INTEGER` column.  The
driver sends the argument as text (`String(value)`); the server accepts an optionally signed
run of digits within the 32-bit range and raises an error for any other text.  `undefined`
and `null` are sent as `NULL`, which the `NOT NULL` column refuses.  `none` stands for a
statement that fails on its argument. -/
def pgInteger : JSValue → Option Int
  | .number (.finite q) =>
    if q.den = 1 ∧ -2147483648 ≤ q.num ∧ q.num ≤ 2147483647 then some q.num else none
  | _ => none

/-! ## Tables -/

/-- Values of the `role` columns and of the token's `role` field. -/
inductive Role where
  | admin
  | normal_user
  | store_owner
  deriving DecidableEq, Repr

/-- Values of `users.claim_status`. -/
inductive ClaimStatus where
  | none
  | pending_verification
  deriving DecidableEq, Repr

/-- A row of `users`. -/
structure UserRow where
  id : Nat
  name : JSString
  email : JSString
  password : JSString
  address : JSString
  role : Role
  created_at : Nat
  claim_status : ClaimStatus
  deriving DecidableEq

/-- A row of `stores`. -/
structure StoreRow where
  id : Nat
  name : JSString
  email : JSString
  password : JSString
  address : JSString
  role : Role
  created_at : Nat
  deriving DecidableEq

/-- A row of `ratings`. -/
structure RatingRow where
  id : Nat
  user_id : Nat
  store_id : Nat
  rating : Int
  created_at : Nat
  updated_at : Nat
  deriving DecidableEq

/-- The database: three tables and the sequences behind their `SERIAL` keys (each holds the
next value it will hand out). -/
structure DB where
  users : List UserRow
  stores : List StoreRow
  ratings : List RatingRow
  users_id_seq : Nat
  stores_id_seq : Nat
  ratings_id_seq : Nat
  deriving DecidableEq

/-- The effect of `ROLLBACK`: the tables return to their state at `BEGIN`; values drawn from
a sequence are not given back. -/
def rollback (atBegin current : DB) : DB :=
  { atBegin with
    users_id_seq := current.users_id_seq
    stores_id_seq := current.stores_id_seq
    ratings_id_seq := current.ratings_id_seq }

/-- Statement `INSERT INTO users (name, email, password, address, role) VALUES (...)`.
The key is drawn from the sequence whether or not the row is accepted.  The row is refused
when the key or the email is already present (`PRIMARY KEY`, `UNIQUE`) or a text is longer
than its column. -/
def insertUser (db : DB) (name email password address : JSString) (role : Role) (now : Nat) :
    DB × Option UserRow :=
  let row : UserRow := ⟨db.users_id_seq, name, email, password, address, role, now, .none⟩
  let db1 := { db with users_id_seq := db.users_id_seq + 1 }
  if db.users.any (fun u => u.id == row.id) || db.users.any (fun u => u.email == email) ||
      decide (60 < name.length) || decide (255 < email.length) ||
      decide (255 < password.length) || decide (400 < address.length) then
    (db1, none)
  else
    ({ db1 with users := db.users ++ [row] }, some row)

/-- Statement `INSERT INTO stores (name, email, password, address, role) VALUES (...)`, with
the same constraints as `users`. -/
def insertStore (db : DB) (name email password address : JSString) (role : Role) (now : Nat) :
    DB × Option StoreRow :=
  let row : StoreRow := ⟨db.stores_id_seq, name, email, password, address, role, now⟩
  let db1 := { db with stores_id_seq := db.stores_id_seq + 1 }
  if db.stores.any (fun s => s.id == row.id) || db.stores.any (fun s => s.email == email) ||
      decide (60 < name.length) || decide (255 < email.length) ||
      decide (255 < password.length) || decide (400 < address.length) then
    (db1, none)
  else
    ({ db1 with stores := db.stores ++ [row] }, some row)

/-- Statement `DELETE FROM users WHERE id = $1`, for the integer the server read from the
argument; `ON DELETE CASCADE` removes the ratings that reference the deleted rows. -/
def deleteUser (db : DB) (id : Int) : DB :=
  { db with
    users := db.users.filter (fun u => !((u.id : Int) == id))
    ratings := db.ratings.filter (fun r => !((r.user_id : Int) == id)) }

/-- Statement `INSERT INTO ratings (user_id, store_id, rating) VALUES ($1, $2, $3)
ON CONFLICT (user_id, store_id) DO UPDATE SET rating = $3, updated_at = CURRENT_TIMESTAMP`.
The Boolean tells whether the statement succeeded.  It fails when the score breaks the
`CHECK`, and, for a new row, when the key is taken or `user_id` or `store_id` references no
row. -/
def upsertRating (db : DB) (user_id store_id : Nat) (rating : Int) (now : Nat) : DB × Bool :=
  let db1 := { db with ratings_id_seq := db.ratings_id_seq + 1 }
  if !(decide (1 ≤ rating) && decide (rating ≤ 5)) then
    (db1, false)
  else if db.ratings.any (fun r => r.user_id == user_id && r.store_id == store_id) then
    ({ db1 with
        ratings := db.ratings.map (fun r =>
          if r.user_id == user_id && r.store_id == store_id then
            { r with rating := rating, updated_at := now }
          else r) }, true)
  else if db.ratings.any (fun r => r.id == db.ratings_id_seq) ||
      !db.users.any (fun u => u.id == user_id) || !db.stores.any (fun s => s.id == store_id) then
    (db1, false)
  else
    ({ db1 with
        ratings := db.ratings ++ [⟨db.ratings_id_seq, user_id, store_id, rating, now, now⟩] },
      true)

/-! ## Requests and replies -/

/-- The fields signed into a token: `{ userId, role }`. -/
structure TokenPayload where
  userId : Nat
  role : Role
  deriving DecidableEq

/-- What `authenticateToken` finds in the `authorization` header. -/
inductive Credentials where
  /-- No token: 401. -/
  | missing
  /-- A token that `jwt.verify` rejects: 403. -/
  | invalid
  /-- A token that verifies, with its payload. -/
  | valid (user : TokenPayload)
  deriving DecidableEq

/-- The reply of a handler. -/
inductive Reply (β : Type) where
  /-- `res.status(status).json(body)`. -/
  | json (status : Nat) (body : β)
  /-- `res.status(status).json({ error })`. -/
  | error (status : Nat) (error : String)
  deriving DecidableEq

/-- The status code of a reply. -/
def Reply.status {β : Type} : Reply β → Nat
  | .json status _ => status
  | .error status _ => status

/-- The JSON body of a reply, when it is not an error. -/
def Reply.body {β : Type} : Reply β → Option β
  | .json _ body => some body
  | .error _ _ => none

/-- Middleware `authenticateToken` followed by `requireRole(roles)`, then the handler. -/
def guarded {β : Type} (auth : Credentials) (roles : Option (List Role)) (db : DB)
    (handler : TokenPayload → Reply β × DB) : Reply β × DB :=
  match auth with
  | .missing => (.error 401 "Access token required", db)
  | .invalid => (.error 403 "Invalid token", db)
  | .valid user =>
    match roles with
    | none => handler user
    | some rs =>
      if rs.contains user.role then handler user
      else (.error 403 "Insufficient permissions", db)

/-- Library code the handlers call and that is not part of the repository. -/
structure Env where
  /-- Primitive `bcrypt.hash(password, 10)`. -/
  bcryptHash : JSString → JSString
  /-- Primitive `bcrypt.compare(password, hash)`. -/
  bcryptCompare : JSString → JSString → Bool
  /-- Method `String.prototype.toUpperCase`. -/
  toUpperCase : JSString → JSString
  /-- The order of the database collation on text, used by `ORDER BY`. -/
  textLe : JSString → JSString → Bool
  /-- The case folding the database applies to both sides of `ILIKE`. -/
  lower : JSString → JSString
  /-- The server's input conversion of a text argument compared with an `INTEGER` column:
  the integer read, or `none` when the text is refused (it is not an integer literal, or the
  value is outside the 32-bit range) and the statement raises an error. -/
  int4In : JSString → Option Int

/-! ## Registration and login -/

/-- The columns `RETURNING id, name, email, address, role`. -/
structure RegisteredUser where
  id : Nat
  name : JSString
  email : JSString
  address : JSString
  role : Role
  deriving DecidableEq

/-- The body `{ token, user }` of a successful registration. -/
structure RegisterBody where
  token : TokenPayload
  user : RegisteredUser
  deriving DecidableEq

/-- Handler of `POST /api/auth/register`. -/
def register (env : Env) (db : DB) (now : Nat) (name email password address : JSString) :
    Reply RegisterBody × DB :=
  if !validateName name || !validateEmail email || !validatePassword password ||
      !validateAddress address then
    (.error 400 "Invalid input data. Check all fields meet requirements.", db)
  else if (db.users.filter (fun u => u.email == email)).length > 0 then
    (.error 400 "Email already registered", db)
  else
    match insertUser db name email (env.bcryptHash password) address .normal_user now with
    | (db1, none) => (.error 500 "Internal server error", db1)
    | (db1, some user) =>
      (.json 201 ⟨⟨user.id, user.role⟩, ⟨user.id, user.name, user.email, user.address, user.role⟩⟩,
        db1)

/-- The row found by the login lookup, without its password. -/
structure LoginUser where
  id : Nat
  name : JSString
  email : JSString
  address : JSString
  role : Role
  created_at : Nat
  claim_status : Option ClaimStatus
  deriving DecidableEq

/-- The body `{ token, user }` of a successful login. -/
structure LoginBody where
  token : TokenPayload
  user : LoginUser
  deriving DecidableEq

/-- Handler of `POST /api/auth/login`: the email is looked up in `users`, then in `stores`;
the token carries the `id` and `role` of the row found. -/
def login (env : Env) (db : DB) (email password : JSString) : Reply LoginBody :=
  if !validateEmail email then .error 400 "Invalid email format"
  else
    match db.users.filter (fun u => u.email == email) with
    | user :: _ =>
      if !env.bcryptCompare password user.password then .error 401 "Invalid credentials"
      else .json 200 ⟨⟨user.id, user.role⟩,
        ⟨user.id, user.name, user.email, user.address, user.role, user.created_at,
          some user.claim_status⟩⟩
    | [] =>
      match db.stores.filter (fun s => s.email == email) with
      | [] => .error 401 "Invalid credentials"
      | user :: _ =>
        if !env.bcryptCompare password user.password then .error 401 "Invalid credentials"
        else .json 200 ⟨⟨user.id, user.role⟩,
          ⟨user.id, user.name, user.email, user.address, user.role, user.created_at, none⟩⟩

/-! ## Ratings -/

/-- Handler of `POST /api/ratings`, behind `requireRole(['normal_user'])`.  `storeId` is the
body field, taken to be a store key. -/
def postRatings (db : DB) (now : Nat) (auth : Credentials) (storeId : Nat) (rating : JSValue) :
    Reply String × DB :=
  guarded auth (some [.normal_user]) db fun user =>
    if ratingRejected rating then (.error 400 "Rating must be between 1 and 5", db)
    else
      match pgInteger rating with
      | none => (.error 500 "Internal server error", db)
      | some score =>
        match upsertRating db user.userId storeId score now with
        | (db1, false) => (.error 500 "Internal server error", db1)
        | (db1, true) => (.json 201 "Rating submitted successfully", db1)

/-! ## Promotion of a user to store owner -/

/-- Handler of `POST /api/admin/users/:id/verify`, behind `requireRole(['admin'])`.  `id` is
the raw path segment `req.params.id`, passed as it is to the `SELECT` and to the `DELETE`.
When the server does not read it as an integer the `SELECT` raises an error, and the `catch`
block rolls back and answers 500. -/
def verifyUser (env : Env) (db : DB) (now : Nat) (auth : Credentials) (id : JSString) :
    Reply String × DB :=
  guarded auth (some [.admin]) db fun _ =>
    match env.int4In id with
    | none => (.error 500 "Internal server error during verification.", db)
    | some key =>
      match db.users.filter (fun u => (u.id : Int) == key && u.role == .normal_user) with
      | [] => (.error 404 "Normal user not found or is not eligible for verification.", db)
      | user :: _ =>
        match insertStore db user.name user.email user.password user.address .store_owner now with
        | (db1, none) =>
          (.error 500 "Internal server error during verification.", rollback db db1)
        | (db1, some _) =>
          (.json 200 "User verified and converted to Store Owner.", deleteUser db1 key)

/-! ## Store listing -/

/-- Some suffix of `t` satisfies `f`. -/
def anySuffix (f : JSString → Bool) : JSString → Bool
  | [] => f []
  | c :: t => f (c :: t) || anySuffix f t

/-- The `LIKE` operator, pattern first: `%` (37) stands for any run of characters, `_` (95)
for any one character, and `\` (92) makes the next pattern character literal.  The server
rejects a pattern that ends in a lone `\`; the patterns built by the handler end in `%`, so
the case does not arise and is answered `false`. -/
def likeMatch : JSString → JSString → Bool
  | [], t => t.isEmpty
  | c :: p, t =>
    if c = 37 then anySuffix (likeMatch p) t
    else if c = 95 then
      match t with
      | [] => false
      | _ :: t1 => likeMatch p t1
    else if c = 92 then
      match p with
      | [] => false
      | e :: p1 =>
        match t with
        | [] => false
        | x :: t1 => x == e && likeMatch p1 t1
    else
      match t with
      | [] => false
      | x :: t1 => x == c && likeMatch p t1

/-- The `ILIKE` operator: `LIKE` after case folding of the text and of the pattern. -/
def ilike (env : Env) (text pattern : JSString) : Bool :=
  likeMatch (env.lower pattern) (env.lower text)

/-- Operator `LEFT JOIN ... ON`: every left row paired with each matching right row, or with
`NULL` when none matches. -/
def leftJoin {α β : Type} (l : List α) (r : List β) (cond : α → β → Bool) : List (α × Option β) :=
  l.flatMap fun a =>
    match r.filter (cond a) with
    | [] => [(a, none)]
    | b :: bs => (b :: bs).map fun x => (a, some x)

/-- Clause `GROUP BY`: one group per distinct key, holding the rows with that key. -/
def groupBy {α κ : Type} [DecidableEq κ] (key : α → κ) (rows : List α) : List (κ × List α) :=
  ((rows.map key).dedup).map fun k => (k, rows.filter fun row => decide (key row = k))

/-- A value of the database type `numeric`: the decimal number `digits / 10 ^ scale`, written
with `scale` decimal places.  `⟨13333333333333333, 16⟩` is `1.3333333333333333`. -/
structure PgNumeric where
  digits : Int
  scale : Nat
  deriving DecidableEq

/-- The number a `numeric` denotes. -/
def PgNumeric.value (x : PgNumeric) : ℚ := (x.digits : ℚ) / (10 : ℚ) ^ x.scale

/-- Comparison of two `numeric` values. -/
def PgNumeric.le (x y : PgNumeric) : Bool :=
  decide (x.digits * (10 : Int) ^ y.scale ≤ y.digits * (10 : Int) ^ x.scale)

/-- The weight and the first digit of a natural number in the server's base 10000
representation: the position of its leading base 10000 digit, and that digit; `(0, 0)` for
zero.  The first argument bounds the number of digits. -/
def numericHead : Nat → Nat → Nat × Nat
  | 0, n => (0, n)
  | fuel + 1, n =>
    if n < 10000 then (0, n)
    else ((numericHead fuel (n / 10000)).1 + 1, (numericHead fuel (n / 10000)).2)

/-- The number of decimal places the server gives to the quotient of two integers
(`select_div_scale`): at least 16 significant digits, from the estimated weight of the
quotient, that is `16 - 4 * qweight` kept between 0 and 1000. -/
def selectDivScale (a b : Nat) : Nat :=
  let qweight : Int :=
    ((numericHead a a).1 : Int) - ((numericHead b b).1 : Int) -
      (if (numericHead a a).2 ≤ (numericHead b b).2 then 1 else 0)
  (min (max (16 - qweight * 4) 0) 1000).toNat

/-- The `numeric` division of an integer by a positive integer: the quotient rounded to
`selectDivScale` decimal places, a half rounded away from zero. -/
def numericDiv (a : Int) (b : Nat) : PgNumeric :=
  let scale := selectDivScale a.natAbs b
  let magnitude : Nat := (2 * a.natAbs * 10 ^ scale + b) / (2 * b)
  ⟨if a < 0 then -(magnitude : Int) else (magnitude : Int), scale⟩

/-- Aggregate `AVG` over an `INTEGER` column: `NULL` when no value is not `NULL`, else the
`numeric` division of the sum of the values that are not `NULL` by their number. -/
def sqlAvg (xs : List (Option Int)) : Option PgNumeric :=
  match xs.reduceOption with
  | [] => none
  | v :: vs => some (numericDiv (v :: vs).sum (v :: vs).length)

/-- A row of the listing: `id, name, address, average_rating, user_rating`. -/
structure StoreListing where
  id : Nat
  name : JSString
  address : JSString
  average_rating : PgNumeric
  user_rating : Option Int
  deriving DecidableEq

/-- The order requested by `ORDER BY column direction` on listing rows. -/
def orderLe (env : Env) (column direction : JSString) (a b : StoreListing) : Bool :=
  let le (x y : StoreListing) : Bool :=
    if column = js "average_rating" then x.average_rating.le y.average_rating
    else if column = js "address" then env.textLe x.address y.address
    else env.textLe x.name y.name
  if direction = js "DESC" then le b a else le a b

/-- The query of `GET /api/stores`:
`SELECT s.id, s.name, s.address, COALESCE(AVG(r.rating), 0) as average_rating,
ur.rating as user_rating FROM stores s LEFT JOIN ratings r ON s.id = r.store_id
LEFT JOIN ratings ur ON s.id = ur.store_id AND ur.user_id = $1
WHERE s.name ILIKE $2 OR s.address ILIKE $2 GROUP BY s.id, ur.rating
ORDER BY column direction`. -/
def storesQuery (env : Env) (db : DB) (column direction : JSString) (userId : Nat)
    (pattern : JSString) : List StoreListing :=
  let joined : List ((StoreRow × Option RatingRow) × Option RatingRow) :=
    leftJoin (leftJoin db.stores db.ratings fun s r => s.id == r.store_id) db.ratings
      fun sr ur => sr.1.id == ur.store_id && ur.user_id == userId
  let selected := joined.filter fun row =>
    ilike env row.1.1.name pattern || ilike env row.1.1.address pattern
  let groups := groupBy (fun row => (row.1.1.id, row.2.map (·.rating))) selected
  let rows := groups.filterMap fun g =>
    match g.2 with
    | [] => none
    | row :: _ =>
      some
        { id := row.1.1.id
          name := row.1.1.name
          address := row.1.1.address
          average_rating := (sqlAvg (g.2.map fun x => x.1.2.map (·.rating))).getD ⟨0, 0⟩
          user_rating := g.1.2 }
  rows.insertionSort fun a b => orderLe env column direction a b = true

/-- The `allowedSortBy` list of `GET /api/stores`. -/
def allowedSortBy : List JSString := [js "name", js "address", js "average_rating"]

/-- The `allowedSortBy` list of `GET /api/admin/stores`. -/
def adminAllowedSortBy : List JSString :=
  [js "name", js "email", js "average_rating", js "total_ratings"]

/-- Expression `allowed.includes(sortBy) ? sortBy : 'name'`. -/
def safeSortBy (allowed : List JSString) (sortBy : JSString) : JSString :=
  if allowed.contains sortBy then sortBy else js "name"

/-- Expression `sortOrder.toUpperCase() === 'DESC' ? 'DESC' : 'ASC'`. -/
def safeSortOrder (env : Env) (sortOrder : JSString) : JSString :=
  if env.toUpperCase sortOrder = js "DESC" then js "DESC" else js "ASC"

/-- The fragment `${safeSortBy} ${safeSortOrder}` spliced after `ORDER BY`. -/
def orderByFragment (env : Env) (allowed : List JSString) (sortBy sortOrder : JSString) :
    JSString :=
  safeSortBy allowed sortBy ++ js " " ++ safeSortOrder env sortOrder

/-- The query text that `GET /api/stores` passes to `pool.query`; an absent query parameter
takes the value `'name'` or `'asc'`. -/
def storesQueryText (env : Env) (sortBy sortOrder : Option JSString) : JSString :=
  js "
      SELECT s.id, s.name, s.address, COALESCE(AVG(r.rating), 0) as average_rating, ur.rating as user_rating
      FROM stores s
      LEFT JOIN ratings r ON s.id = r.store_id
      LEFT JOIN ratings ur ON s.id = ur.store_id AND ur.user_id = $1
      WHERE s.name ILIKE $2 OR s.address ILIKE $2
      GROUP BY s.id, ur.rating
      ORDER BY " ++
    orderByFragment env allowedSortBy (sortBy.getD (js "name")) (sortOrder.getD (js "asc"))

/-- The query text that `GET /api/admin/stores` passes to `pool.query`. -/
def adminStoresQueryText (env : Env) (sortBy sortOrder : Option JSString) : JSString :=
  js "
            SELECT s.id, s.name, s.email, s.address, s.created_at, COALESCE(AVG(r.rating), 0) as average_rating, COUNT(r.id) as total_ratings
            FROM stores s LEFT JOIN ratings r ON s.id = r.store_id
            GROUP BY s.id ORDER BY " ++
    orderByFragment env adminAllowedSortBy (sortBy.getD (js "name")) (sortOrder.getD (js "asc"))

/-- Handler of `GET /api/stores`, behind `authenticateToken` only: any role may call it, and
the token's `userId` is the first query argument. -/
def getStores (env : Env) (db : DB) (auth : Credentials) (search sortBy sortOrder : Option JSString) :
    Reply (List StoreListing) × DB :=
  guarded auth none db fun user =>
    (.json 200
      (storesQuery env db (safeSortBy allowedSortBy (sortBy.getD (js "name")))
        (safeSortOrder env (sortOrder.getD (js "asc"))) user.userId
        (js "%" ++ search.getD (js "") ++ js "%")), db)

/-! ## A concrete environment

Used to run the handlers on examples: ASCII case mapping, code unit order as collation,
decimal integer literals, and fixed stand-ins for the password hash. -/

/-- Upper case of the ASCII letters. -/
def asciiUpper (s : JSString) : JSString :=
  s.map fun c => if 97 ≤ c ∧ c ≤ 122 then c - 32 else c

/-- Lower case of the ASCII letters. -/
def asciiLower (s : JSString) : JSString :=
  s.map fun c => if 65 ≤ c ∧ c ≤ 90 then c + 32 else c

/-- Lexicographic order on code units. -/
def codeUnitLe : JSString → JSString → Bool
  | [], _ => true
  | _ :: _, [] => false
  | a :: s, b :: t => decide (a < b) || (a == b && codeUnitLe s t)

/-- The value of a run of decimal digits; `none` when the run is empty or holds another
character. -/
def decimalValue (s : JSString) : Option Nat :=
  if s.isEmpty || !s.all (fun c => decide (48 ≤ c) && decide (c ≤ 57)) then none
  else some (s.foldl (fun acc c => 10 * acc + (c - 48)) 0)

/-- Reading of a decimal integer literal, with an optional sign, within the 32-bit range. -/
def decimalInt4 (s : JSString) : Option Int :=
  let signed : Option Int :=
    match s with
    | 45 :: t => (decimalValue t).map fun n => -(n : Int)
    | 43 :: t => (decimalValue t).map fun n => (n : Int)
    | t => (decimalValue t).map fun n => (n : Int)
  match signed with
  | none => none
  | some v => if -2147483648 ≤ v ∧ v ≤ 2147483647 then some v else none

/-- An environment for examples. -/
def asciiEnv : Env where
  bcryptHash p := js "$2a$10$" ++ p
  bcryptCompare p h := h == js "$2a$10$" ++ p
  toUpperCase := asciiUpper
  textLe := codeUnitLe
  lower := asciiLower
  int4In := decimalInt4

/-! ## Example states -/

/-- A state with one store owner and no user. -/
def storeOnlyDb : DB where
  users := []
  stores := [⟨1, js "Downtown Grocery Store", js "owner@shop.com", js "$2a$10$Owner123!",
    js "2 Market Street", .store_owner, 100⟩]
  ratings := []
  users_id_seq := 1
  stores_id_seq := 2
  ratings_id_seq := 1

/-- A state with one normal user, one store owner, and the user's rating of the store.  Both
keys are 1: the two tables draw their keys from separate sequences. -/
def ratedDb : DB where
  users := [⟨1, js "Jonathan Q. Publicsmith II", js "jq@ex.com", js "$2a$10$Abcdef1!",
    js "1 A St", .normal_user, 50, .none⟩]
  stores := [⟨1, js "Downtown Grocery Store", js "owner@shop.com", js "$2a$10$Owner123!",
    js "2 Market Street", .store_owner, 100⟩]
  ratings := [⟨1, 1, 1, 4, 200, 200⟩]
  users_id_seq := 2
  stores_id_seq := 2
  ratings_id_seq := 2

/-- A state for the promotion: an administrator, a normal user with a pending claim who has
rated the store, and a store. -/
def claimDb : DB where
  users := [⟨1, js "Default System Administrator", js "admin@storerating.com",
      js "$2a$10$Admin123!", js "123 Admin Street", .admin, 10, .none⟩,
    ⟨2, js "Nathaniel B. Shopkeeper", js "n@x.com", js "$2a$10$Abcdef1!", js "5 High Street",
      .normal_user, 50, .pending_verification⟩]
  stores := [⟨1, js "Downtown Grocery Store", js "owner@shop.com", js "$2a$10$Owner123!",
    js "2 Market Street", .store_owner, 100⟩]
  ratings := [⟨1, 2, 1, 4, 200, 200⟩]
  users_id_seq := 3
  stores_id_seq := 2
  ratings_id_seq := 2

/-- The state `claimDb` with the store's email changed to that of the claiming user. -/
def collisionDb : DB :=
  { claimDb with
    stores := [⟨1, js "Downtown Grocery Store", js "n@x.com", js "$2a$10$Owner123!",
      js "2 Market Street", .store_owner, 100⟩] }

/-- A state with three users who rated store 1 with 1, 3 and 5, and a second store without
ratings. -/
def aggregateDb : DB where
  users := [⟨1, js "Jonathan Q. Publicsmith II", js "jq@ex.com", js "$2a$10$Abcdef1!",
      js "1 A St", .normal_user, 50, .none⟩,
    ⟨2, js "Nathaniel B. Shopkeeper", js "n@x.com", js "$2a$10$Abcdef1!", js "5 High Street",
      .normal_user, 60, .none⟩,
    ⟨3, js "Wilhelmina C. Ratingsworth", js "w@x.com", js "$2a$10$Abcdef1!", js "7 Low Street",
      .normal_user, 70, .none⟩]
  stores := [⟨1, js "Downtown Grocery Store", js "owner@shop.com", js "$2a$10$Owner123!",
      js "2 Market Street", .store_owner, 100⟩,
    ⟨2, js "Uptown Hardware and Tools", js "tools@shop.com", js "$2a$10$Owner123!",
      js "9 Market Street", .store_owner, 110⟩]
  ratings := [⟨1, 1, 1, 1, 200, 200⟩, ⟨2, 2, 1, 3, 210, 210⟩, ⟨3, 3, 1, 5, 220, 220⟩]
  users_id_seq := 4
  stores_id_seq := 3
  ratings_id_seq := 4

/-- A state with three users who rated store 1 with 1, 1 and 2. -/
def thirdsDb : DB where
  users := [⟨1, js "Jonathan Q. Publicsmith II", js "jq@ex.com", js "$2a$10$Abcdef1!",
      js "1 A St", .normal_user, 50, .none⟩,
    ⟨2, js "Nathaniel B. Shopkeeper", js "n@x.com", js "$2a$10$Abcdef1!", js "5 High Street",
      .normal_user, 60, .none⟩,
    ⟨3, js "Wilhelmina C. Ratingsworth", js "w@x.com", js "$2a$10$Abcdef1!", js "7 Low Street",
      .normal_user, 70, .none⟩]
  stores := [⟨1, js "Downtown Grocery Store", js "owner@shop.com", js "$2a$10$Owner123!",
      js "2 Market Street", .store_owner, 100⟩]
  ratings := [⟨1, 1, 1, 1, 200, 200⟩, ⟨2, 2, 1, 1, 210, 210⟩, ⟨3, 3, 1, 2, 220, 220⟩]
  users_id_seq := 4
  stores_id_seq := 2
  ratings_id_seq := 4

/-- Two rating requests of user `r` for store `s`, with scores `x` at time `t1` and `y` at
time `t2`: the state after the second. -/
def rateTwice (db : DB) (t1 t2 r s : Nat) (x y : Int) : DB :=
  (postRatings (postRatings db t1 (.valid ⟨r, .normal_user⟩) s (.number (.finite x))).2 t2
    (.valid ⟨r, .normal_user⟩) s (.number (.finite y))).2

/-! ## The listing as the specification words it -/

/-- The filter of the listing: the store's name or address matches the pattern. -/
def matchesSearch (env : Env) (pattern : JSString) (s : StoreRow) : Bool :=
  ilike env s.name pattern || ilike env s.address pattern

/-- The scores of all the ratings of a store. -/
def storeScores (db : DB) (storeId : Nat) : List Int :=
  (db.ratings.filter fun q => q.store_id == storeId).map (·.rating)

/-- The arithmetic mean of a list of scores, and 0 for the empty list. -/
def meanOrZero (scores : List Int) : ℚ :=
  if scores = [] then 0 else (scores.sum : ℚ) / (scores.length : ℚ)

/-- The right-hand sides that the first join pairs with a store: its ratings, or one `NULL`
when it has none. -/
def ratingOptions (db : DB) (s : StoreRow) : List (Option RatingRow) :=
  match db.ratings.filter (fun q => s.id == q.store_id) with
  | [] => [none]
  | b :: bs => (b :: bs).map some

/-- The row that the second join pairs with a store: the first rating of that store whose
`user_id` is the query argument, or `NULL`. -/
def viewerRow (db : DB) (userId : Nat) (s : StoreRow) : Option RatingRow :=
  (db.ratings.filter fun q => s.id == q.store_id && q.user_id == userId).head?

/-- The nearest integer to a rational, a half going away from zero. -/
def roundHalfAway (q : ℚ) : Int :=
  if 0 ≤ q then ⌊q + 1 / 2⌋ else -⌊-q + 1 / 2⌋

/-- The arithmetic mean of a list of scores rounded to the number of decimal places that the
database gives to the quotient of their sum by their number, and 0 for the empty list. -/
def meanRounded (scores : List Int) : ℚ :=
  if scores = [] then 0
  else
    (roundHalfAway (meanOrZero scores * (10 : ℚ) ^ selectDivScale scores.sum.natAbs scores.length) : ℚ) /
      (10 : ℚ) ^ selectDivScale scores.sum.natAbs scores.length

/-- The average of a list of scores as the query computes it: the `numeric` division of the
sum by the number of scores, and the integer 0 that `COALESCE` supplies for the empty list. -/
def averageOrZero (scores : List Int) : PgNumeric :=
  if scores = [] then ⟨0, 0⟩ else numericDiv scores.sum scores.length

/-! ## Facts about the regular expression matcher -/

theorem le_length_takeWhile_iff (p : Nat → Bool) (s : JSString) (k : Nat) :
    k ≤ (s.takeWhile p).length ↔ k ≤ s.length ∧ ∀ x ∈ s.take k, p x = true := by
  induction s generalizing k with
  | nil => simp
  | cons a t ih =>
    cases k with
    | zero => simp
    | succ k =>
      by_cases ha : p a = true
      · simp [List.takeWhile_cons, ha, ih]
      · simp [List.takeWhile_cons, ha]

theorem mem_repRests (p : Nat → Bool) (lo : Nat) (hi : Option Nat) (s t : JSString) :
    t ∈ repRests p lo hi s ↔
      ∃ k, k ≤ (s.takeWhile p).length ∧ lo ≤ k ∧ (∀ h, hi = some h → k ≤ h) ∧ t = s.drop k := by
  unfold repRests
  simp only [List.mem_map, List.mem_reverse, List.mem_filter, List.mem_range, Bool.and_eq_true,
    decide_eq_true_eq]
  constructor
  · rintro ⟨k, ⟨hk, hlo, hhi⟩, rfl⟩
    refine ⟨k, by omega, hlo, ?_, rfl⟩
    intro h hh
    subst hh
    simpa using hhi
  · rintro ⟨k, hk, hlo, hhi, rfl⟩
    refine ⟨k, ⟨by omega, hlo, ?_⟩, rfl⟩
    cases hi with
    | none => rfl
    | some h => simpa using hhi h rfl

theorem rests_ahead_seq (r q : Rx) (s : JSString) :
    rests (.seq (.ahead r) q) s = if (rests r s).isEmpty then [] else rests q s := by
  simp only [rests]
  split <;> simp

theorem isEmpty_eq_false_iff {α : Type} (l : List α) : l.isEmpty = false ↔ ∃ t, t ∈ l := by
  cases l with
  | nil => simp
  | cons a l => exact ⟨fun _ => ⟨a, List.mem_cons_self a l⟩, fun _ => rfl⟩

/-- The lookahead `(?=.*c)` succeeds when some code unit of class `c` is preceded only by
code units matched by `.`. -/
theorem lookahead_iff (c : Nat → Bool) (s : JSString) :
    (rests (.seq (.rep dot 0 none) (.cls c)) s).isEmpty = false ↔
      ∃ k x, k ≤ (s.takeWhile dot).length ∧ s[k]? = some x ∧ c x = true := by
  rw [isEmpty_eq_false_iff]
  simp only [rests, List.mem_flatMap, mem_repRests]
  constructor
  · rintro ⟨t, u, ⟨k, hk, -, -, rfl⟩, ht⟩
    cases hd : s.drop k with
    | nil => simp [hd] at ht
    | cons x rest =>
      have hx : s[k]? = some x := by
        have := List.head?_drop s k
        rw [hd] at this
        simpa using this.symm
      refine ⟨k, x, hk, hx, ?_⟩
      by_contra hc
      simp [hd, hc] at ht
  · rintro ⟨k, x, hk, hx, hc⟩
    have hd : (s.drop k).head? = some x := by rw [List.head?_drop]; exact hx
    cases hdr : s.drop k with
    | nil => simp [hdr] at hd
    | cons y rest =>
      rw [hdr] at hd
      simp at hd
      subst hd
      exact ⟨rest, s.drop k, ⟨k, hk, Nat.zero_le _, by simp, rfl⟩, by simp [hdr, hc]⟩

/-- The tail `.{8,16}$` succeeds when the whole input is 8 to 16 code units matched by `.`. -/
theorem tail_iff (s : JSString) :
    (rests (.seq (.rep dot 8 (some 16)) .eoi) s).isEmpty = false ↔
      8 ≤ s.length ∧ s.length ≤ 16 ∧ ∀ x ∈ s, dot x = true := by
  rw [isEmpty_eq_false_iff]
  simp only [rests, List.mem_flatMap, mem_repRests]
  constructor
  · rintro ⟨t, u, ⟨k, hk, hlo, hhi, rfl⟩, ht⟩
    have hnil : s.drop k = [] := by
      by_contra hne
      have : (s.drop k).isEmpty = false := by
        cases hd : s.drop k with
        | nil => exact absurd hd hne
        | cons a l => rfl
      simp [this] at ht
    have hlen : s.length ≤ k := List.drop_eq_nil_iff.mp hnil
    have h16 := hhi 16 rfl
    obtain ⟨hks, hall⟩ := (le_length_takeWhile_iff dot s k).mp hk
    refine ⟨by omega, by omega, ?_⟩
    rw [List.take_of_length_le hlen] at hall
    exact hall
  · rintro ⟨h8, h16, hall⟩
    refine ⟨[], s.drop s.length, ⟨s.length, ?_, h8, ?_, rfl⟩, by simp⟩
    · exact (le_length_takeWhile_iff dot s s.length).mpr ⟨le_rfl, by simpa using hall⟩
    · intro h hh
      cases hh
      exact h16

/-- When every code unit is matched by `.`, the lookahead `(?=.*c)` just asks for a code
unit of class `c`. -/
theorem lookahead_of_all_dot (c : Nat → Bool) (s : JSString) (hall : ∀ x ∈ s, dot x = true) :
    (rests (.seq (.rep dot 0 none) (.cls c)) s).isEmpty = false ↔ ∃ x ∈ s, c x = true := by
  rw [lookahead_iff]
  constructor
  · rintro ⟨k, x, -, hx, hc⟩
    exact ⟨x, List.mem_iff_getElem?.mpr ⟨k, hx⟩, hc⟩
  · rintro ⟨x, hx, hc⟩
    obtain ⟨k, hk, hkx⟩ := List.getElem_of_mem hx
    refine ⟨k, x, ?_, ?_, hc⟩
    · rw [List.takeWhile_eq_self_iff.mpr hall]
      exact hk.le
    · rw [List.getElem?_eq_getElem hk, hkx]

/-- C10, amended: `validatePassword p` holds exactly when `p` has 8 to 16 code units, one of
them in `A`-`Z`, one of them among `!@#$%^&*`, and none of them a line terminator (LF, CR,
U+2028, U+2029). -/
theorem validatePassword_iff (p : JSString) :
    validatePassword p = true ↔
      8 ≤ p.length ∧ p.length ≤ 16 ∧ (∃ c ∈ p, isUpperAZ c = true) ∧
        (∃ c ∈ p, isSpecial c = true) ∧ ∀ c ∈ p, isLineTerminator c = false := by
  have hdot : (∀ x ∈ p, dot x = true) ↔ ∀ c ∈ p, isLineTerminator c = false := by
    simp [dot]
  unfold validatePassword Rx.test passwordRx
  rw [rests_ahead_seq, rests_ahead_seq]
  by_cases hall : ∀ x ∈ p, dot x = true
  · have h1 := lookahead_of_all_dot isUpperAZ p hall
    have h2 := lookahead_of_all_dot isSpecial p hall
    have h3 := tail_iff p
    by_cases e1 : (rests (.seq (.rep dot 0 none) (.cls isUpperAZ)) p).isEmpty = true
    · have : ¬ ∃ x ∈ p, isUpperAZ x = true := by
        rw [← h1]; simp [e1]
      simp only [e1, if_true]
      simp
      intro _ _ x hx hux
      exact absurd ⟨x, hx, hux⟩ this
    · simp only [Bool.not_eq_true] at e1
      have hu := h1.mp e1
      by_cases e2 : (rests (.seq (.rep dot 0 none) (.cls isSpecial)) p).isEmpty = true
      · have : ¬ ∃ x ∈ p, isSpecial x = true := by
          rw [← h2]; simp [e2]
        simp only [e1, e2, if_true]
        simp
        intro _ _ _ _ _ x hx hsx
        exact absurd ⟨x, hx, hsx⟩ this
      · simp only [Bool.not_eq_true] at e2
        have hs := h2.mp e2
        simp only [e1, e2, Bool.false_eq_true, if_false, Bool.not_eq_true']
        rw [h3]
        constructor
        · rintro ⟨a, b, c⟩
          exact ⟨a, b, hu, hs, hdot.mp c⟩
        · rintro ⟨a, b, -, -, c⟩
          exact ⟨a, b, hdot.mpr c⟩
  · have h3 := tail_iff p
    have hT : (rests (.seq (.rep dot 8 (some 16)) .eoi) p).isEmpty = true := by
      by_contra hne
      simp only [Bool.not_eq_true] at hne
      exact hall (h3.mp hne).2.2
    constructor
    · intro h
      exfalso
      split at h
      · simp at h
      · split at h
        · simp at h
        · simp [hT] at h
    · rintro ⟨_, _, _, _, c⟩
      exact absurd (hdot.mpr c) hall

/-! ## Claims on validation -/

/-- C10, counterexample: the password `Abcdef!` followed by a line feed has 8 code units, an
upper case letter and a special character, and `validatePassword` rejects it. -/
theorem validatePassword_rejects_line_feed :
    ¬ (validatePassword (js "Abcdef!\n") = true ↔
        (8 ≤ (js "Abcdef!\n").length ∧ (js "Abcdef!\n").length ≤ 16 ∧
          (∃ c ∈ js "Abcdef!\n", isUpperAZ c = true) ∧ ∃ c ∈ js "Abcdef!\n", isSpecial c = true)) := by
  decide

/-- C9, failing input: the rating 2.5 passes the guard of `POST /api/ratings`, so no 400 is
sent; the statement is run with it, the server refuses the argument of the `INTEGER` column
and the reply is 500. -/
theorem postRatings_accepts_fraction :
    ratingRejected (.number (.finite (5 / 2))) = false ∧
      (postRatings ratedDb 300 (.valid ⟨1, .normal_user⟩) 1 (.number (.finite (5 / 2)))).1 =
        .error 500 "Internal server error" := by
  have hden : ((5 : ℚ) / 2).den = 2 := by norm_num
  have hrej : ratingRejected (.number (.finite (5 / 2))) = false := by
    simp only [ratingRejected, JSValue.truthy, JSValue.toNumber, JSNumber.lt]
    norm_num
  refine ⟨hrej, ?_⟩
  simp [postRatings, guarded, hrej, pgInteger, hden]

/-! ## Claims on registration and the listing, evaluated -/

/-- C1, failing input: the email `owner@shop.com` is held by a store and by no user; a
registration with valid fields and that email is answered 201 and a `users` row with the
email is inserted. -/
theorem register_accepts_store_email :
    (storeOnlyDb.stores.map (·.email) = [js "owner@shop.com"]) ∧
      (register asciiEnv storeOnlyDb 300 (js "Jonathan Q. Publicsmith II") (js "owner@shop.com")
          (js "Abcdef1!") (js "1 A St")).1.status = 201 ∧
      (register asciiEnv storeOnlyDb 300 (js "Jonathan Q. Publicsmith II") (js "owner@shop.com")
          (js "Abcdef1!") (js "1 A St")).2.users.map (fun u => (u.id, u.email, u.role)) =
        [(1, js "owner@shop.com", .normal_user)] := by
  decide

/-- C6, failing input: the owner of store 1 logs in and receives a token whose subject is
the store key 1; with that token the listing reports `user_rating = 4` for store 1, which is
the rating written by user 1, another identity; the owner wrote no rating. -/
theorem getStores_owner_gets_user_rating :
    (login asciiEnv ratedDb (js "owner@shop.com") (js "Owner123!")).body.map (·.token) =
        some ⟨1, .store_owner⟩ ∧
      ((getStores asciiEnv ratedDb (.valid ⟨1, .store_owner⟩) none none none).1.body.map
          fun rows => rows.map fun row => (row.id, row.user_rating)) = some [(1, some 4)] ∧
      ratedDb.ratings.map (fun r => (r.user_id, r.store_id, r.rating)) = [(1, 1, 4)] ∧
      ratedDb.users.map (fun u => (u.id, u.email, u.role)) = [(1, js "jq@ex.com", .normal_user)] := by
  decide

/-- C8, failing input: the search string `_` occurs neither in the name nor in the address
of store 1, and the listing for that search returns store 1. -/
theorem getStores_underscore_lists_store :
    ((getStores asciiEnv ratedDb (.valid ⟨1, .normal_user⟩) (some (js "_")) none none).1.body.map
        fun rows => rows.map fun row => (row.id, row.name, row.address)) =
        some [(1, js "Downtown Grocery Store", js "2 Market Street")] ∧
      ¬ (asciiLower (js "_") <:+: asciiLower (js "Downtown Grocery Store")) ∧
      ¬ (asciiLower (js "_") <:+: asciiLower (js "2 Market Street")) := by
  decide

/-! ## The ORDER BY fragment -/

theorem safeSortBy_mem (allowed : List JSString) (hname : js "name" ∈ allowed) (sortBy : JSString) :
    safeSortBy allowed sortBy ∈ allowed := by
  unfold safeSortBy
  by_cases h : allowed.contains sortBy = true
  · rw [if_pos h]
    simpa using h
  · rw [if_neg h]
    exact hname

theorem safeSortBy_of_not_mem (allowed : List JSString) (sortBy : JSString)
    (h : sortBy ∉ allowed) : safeSortBy allowed sortBy = js "name" := by
  unfold safeSortBy
  have hc : ¬ allowed.contains sortBy = true := by simpa using h
  rw [if_neg hc]

theorem safeSortBy_name (allowed : List JSString) : safeSortBy allowed (js "name") = js "name" := by
  unfold safeSortBy
  split <;> rfl

theorem safeSortOrder_mem (env : Env) (sortOrder : JSString) :
    safeSortOrder env sortOrder ∈ [js "ASC", js "DESC"] := by
  unfold safeSortOrder
  split <;> simp

theorem safeSortOrder_of_ne (env : Env) (hdesc : env.toUpperCase (js "desc") = js "DESC")
    (hasc : env.toUpperCase (js "asc") = js "ASC") (sortOrder : JSString)
    (h : env.toUpperCase sortOrder ≠ env.toUpperCase (js "desc")) :
    safeSortOrder env sortOrder = safeSortOrder env (js "asc") := by
  unfold safeSortOrder
  rw [hdesc] at h
  rw [if_neg h, hasc]
  rfl

/-- C5: for all strings `sortBy` and `sortOrder`, in `GET /stores` and in
`GET /admin/stores` the spliced fragment is an allowlisted column, a space, and `ASC` or
`DESC`; a `sortBy` outside the allowlist gives the query text of `sortBy=name`; a
`sortOrder` that differs from `desc` after case mapping gives the query text of
`sortOrder=asc`; and `sortBy='password;DROP'` gives the query text of `sortBy='name'`.
The case mapping is the library's `toUpperCase`, of which only its values on `desc` and
`asc` are assumed. -/
theorem orderBy_fragment_allowlisted (env : Env)
    (hdesc : env.toUpperCase (js "desc") = js "DESC")
    (hasc : env.toUpperCase (js "asc") = js "ASC") (sortBy sortOrder : JSString) :
    (∃ column ∈ allowedSortBy, ∃ direction ∈ [js "ASC", js "DESC"],
        orderByFragment env allowedSortBy sortBy sortOrder = column ++ js " " ++ direction) ∧
      (∃ column ∈ adminAllowedSortBy, ∃ direction ∈ [js "ASC", js "DESC"],
        orderByFragment env adminAllowedSortBy sortBy sortOrder =
          column ++ js " " ++ direction) ∧
      (sortBy ∉ allowedSortBy →
        storesQueryText env (some sortBy) (some sortOrder) =
          storesQueryText env (some (js "name")) (some sortOrder)) ∧
      (sortBy ∉ adminAllowedSortBy →
        adminStoresQueryText env (some sortBy) (some sortOrder) =
          adminStoresQueryText env (some (js "name")) (some sortOrder)) ∧
      (env.toUpperCase sortOrder ≠ env.toUpperCase (js "desc") →
        storesQueryText env (some sortBy) (some sortOrder) =
            storesQueryText env (some sortBy) (some (js "asc")) ∧
          adminStoresQueryText env (some sortBy) (some sortOrder) =
            adminStoresQueryText env (some sortBy) (some (js "asc"))) ∧
      storesQueryText env (some (js "password;DROP")) (some sortOrder) =
        storesQueryText env (some (js "name")) (some sortOrder) ∧
      adminStoresQueryText env (some (js "password;DROP")) (some sortOrder) =
        adminStoresQueryText env (some (js "name")) (some sortOrder) := by
  have hn1 : js "name" ∈ allowedSortBy := by decide
  have hn2 : js "name" ∈ adminAllowedSortBy := by decide
  have hp1 : js "password;DROP" ∉ allowedSortBy := by decide
  have hp2 : js "password;DROP" ∉ adminAllowedSortBy := by decide
  refine ⟨⟨_, safeSortBy_mem _ hn1 sortBy, _, safeSortOrder_mem env sortOrder, rfl⟩,
    ⟨_, safeSortBy_mem _ hn2 sortBy, _, safeSortOrder_mem env sortOrder, rfl⟩, ?_, ?_, ?_, ?_, ?_⟩
  · intro h
    simp only [storesQueryText, orderByFragment, Option.getD_some,
      safeSortBy_of_not_mem _ _ h, safeSortBy_name]
  · intro h
    simp only [adminStoresQueryText, orderByFragment, Option.getD_some,
      safeSortBy_of_not_mem _ _ h, safeSortBy_name]
  · intro h
    simp only [storesQueryText, adminStoresQueryText, orderByFragment, Option.getD_some,
      safeSortOrder_of_ne env hdesc hasc sortOrder h, and_self]
  · simp only [storesQueryText, orderByFragment, Option.getD_some,
      safeSortBy_of_not_mem _ _ hp1, safeSortBy_name]
  · simp only [adminStoresQueryText, orderByFragment, Option.getD_some,
      safeSortBy_of_not_mem _ _ hp2, safeSortBy_name]

/-- C5, witness: with the ASCII case mapping, `sortBy='password;DROP'` and `sortOrder='up'`
give the query text of `sortBy='name'`, `sortOrder='asc'`. -/
theorem orderBy_fragment_allowlisted_witness :
    asciiEnv.toUpperCase (js "desc") = js "DESC" ∧ asciiEnv.toUpperCase (js "asc") = js "ASC" ∧
      js "password;DROP" ∉ allowedSortBy ∧
      asciiEnv.toUpperCase (js "up") ≠ asciiEnv.toUpperCase (js "desc") ∧
      storesQueryText asciiEnv (some (js "password;DROP")) (some (js "up")) =
        storesQueryText asciiEnv (some (js "name")) (some (js "asc")) :=
  ⟨by decide, by decide, by decide, by decide,
    ((orderBy_fragment_allowlisted asciiEnv (by decide) (by decide) (js "password;DROP")
        (js "up")).2.2.1 (by decide)).trans
      ((orderBy_fragment_allowlisted asciiEnv (by decide) (by decide) (js "name")
        (js "up")).2.2.2.2.1 (by decide)).1⟩

/-! ## Promotion of a user to store owner -/

theorem insertStore_some (db db1 : DB) (name email password address : JSString) (role : Role)
    (now : Nat) (row : StoreRow)
    (h : insertStore db name email password address role now = (db1, some row)) :
    db1.users = db.users ∧ db1.ratings = db.ratings ∧ db1.stores = db.stores ++ [row] ∧
      row.name = name ∧ row.email = email ∧ row.password = password ∧
      row.address = address ∧ row.role = role := by
  unfold insertStore at h
  simp only at h
  split at h
  · simp at h
  · simp only [Prod.mk.injEq, Option.some.injEq] at h
    obtain ⟨h1, h2⟩ := h
    subst h1 h2
    simp

theorem insertStore_none (db db1 : DB) (name email password address : JSString) (role : Role)
    (now : Nat) (h : insertStore db name email password address role now = (db1, none)) :
    db1.users = db.users ∧ db1.ratings = db.ratings ∧ db1.stores = db.stores := by
  unfold insertStore at h
  simp only at h
  split at h
  · simp only [Prod.mk.injEq, and_true] at h
    subst h
    simp
  · simp at h

theorem insertStore_of_email_taken (db : DB) (name email password address : JSString)
    (role : Role) (now : Nat) (h : ∃ st ∈ db.stores, st.email = email) :
    (insertStore db name email password address role now).2 = none := by
  unfold insertStore
  simp only
  have : db.stores.any (fun s => s.email == email) = true := by
    obtain ⟨st, hst, he⟩ := h
    exact List.any_eq_true.mpr ⟨st, hst, by simp [he]⟩
  simp [this]

/-- The handler for an administrator, once the server has read the path segment as the
integer `key`. -/
theorem verifyUser_admin (env : Env) (db : DB) (now adminId : Nat) (id : JSString) (key : Int)
    (hkey : env.int4In id = some key) :
    verifyUser env db now (.valid ⟨adminId, .admin⟩) id =
      match db.users.filter (fun u => (u.id : Int) == key && u.role == .normal_user) with
      | [] => (.error 404 "Normal user not found or is not eligible for verification.", db)
      | user :: _ =>
        match insertStore db user.name user.email user.password user.address .store_owner now with
        | (db1, none) =>
          (.error 500 "Internal server error during verification.", rollback db db1)
        | (db1, some _) =>
          (.json 200 "User verified and converted to Store Owner.", deleteUser db1 key) := by
  simp [verifyUser, guarded, hkey]

/-- A verify that answers 200 was sent by an administrator, with a path segment that the
server read as an integer. -/
theorem verifyUser_ok_inv (env : Env) (db : DB) (now : Nat) (auth : Credentials) (id : JSString)
    (h : (verifyUser env db now auth id).1.status = 200) :
    ∃ adminId key, auth = .valid ⟨adminId, .admin⟩ ∧ env.int4In id = some key := by
  unfold verifyUser guarded at h
  cases auth with
  | missing => simp [Reply.status] at h
  | invalid => simp [Reply.status] at h
  | valid tok =>
    obtain ⟨uid, role⟩ := tok
    simp only at h
    by_cases hrole : ([Role.admin].contains role) = true
    · have hr : role = Role.admin := by simpa using hrole
      subst hr
      cases hk : env.int4In id with
      | none => simp [hk, Reply.status] at h
      | some key => exact ⟨uid, key, rfl, rfl⟩
    · rw [if_neg hrole] at h
      simp [Reply.status] at h

/-- C2: whenever the verify handler answers 200, its path segment was read as the id `u` of
a user, and the state after it has no `users` row with id `u`, has a `stores` row with role
`store_owner` and the name, email, password hash and address of a `users` row that had id
`u` and role `normal_user` before (of every row that had id `u`, when the ids of `users` are
distinct, as its primary key makes them), and has no `ratings` row with `user_id = u`. -/
theorem verifyUser_success (env : Env) (db : DB) (now : Nat) (auth : Credentials)
    (id : JSString) (h : (verifyUser env db now auth id).1.status = 200) :
    ∃ u : Nat, env.int4In id = some (u : Int) ∧
      (∀ x ∈ (verifyUser env db now auth id).2.users, x.id ≠ u) ∧
      (∃ usr ∈ db.users, usr.id = u ∧ usr.role = .normal_user ∧
        ∃ st ∈ (verifyUser env db now auth id).2.stores, st.role = .store_owner ∧
          st.name = usr.name ∧ st.email = usr.email ∧ st.password = usr.password ∧
          st.address = usr.address) ∧
      ((db.users.map (·.id)).Nodup → ∀ usr ∈ db.users, usr.id = u →
        ∃ st ∈ (verifyUser env db now auth id).2.stores, st.role = .store_owner ∧
          st.name = usr.name ∧ st.email = usr.email ∧ st.password = usr.password ∧
          st.address = usr.address) ∧
      (∀ r ∈ (verifyUser env db now auth id).2.ratings, r.user_id ≠ u) := by
  obtain ⟨adminId, key, rfl, hkey⟩ := verifyUser_ok_inv env db now auth id h
  rw [verifyUser_admin env db now adminId id key hkey] at h ⊢
  cases hf : db.users.filter (fun x => (x.id : Int) == key && x.role == Role.normal_user) with
  | nil => simp [hf, Reply.status] at h
  | cons user rest =>
    simp only [hf] at h ⊢
    have hmem : user ∈ db.users.filter
        (fun x => (x.id : Int) == key && x.role == Role.normal_user) := by
      rw [hf]; exact List.mem_cons_self _ _
    obtain ⟨huser, hprop⟩ := List.mem_filter.mp hmem
    simp only [Bool.and_eq_true, beq_iff_eq] at hprop
    obtain ⟨hid, hr⟩ := hprop
    subst hid
    cases hi : insertStore db user.name user.email user.password user.address
        Role.store_owner now with
    | mk db1 res =>
      cases res with
      | none => simp [hi, Reply.status] at h
      | some row =>
        simp only [hi] at h ⊢
        obtain ⟨hu, hrt, hs, hn, he, hp, ha, hro⟩ := insertStore_some _ _ _ _ _ _ _ _ _ hi
        have hcopy : ∃ st ∈ (deleteUser db1 (user.id : Int)).stores, st.role = .store_owner ∧
            st.name = user.name ∧ st.email = user.email ∧ st.password = user.password ∧
            st.address = user.address :=
          ⟨row, by simp [deleteUser, hs], hro, hn, he, hp, ha⟩
        refine ⟨user.id, hkey, ?_, ⟨user, huser, rfl, hr, hcopy⟩, ?_, ?_⟩
        · intro x hx
          simp only [deleteUser, List.mem_filter, Bool.not_eq_true', beq_eq_false_iff_ne] at hx
          intro hxe
          exact hx.2 (by rw [hxe])
        · intro hnd usr husr husrid
          have : usr = user := List.inj_on_of_nodup_map hnd husr huser husrid
          subst this
          exact hcopy
        · intro r hr
          simp only [deleteUser, List.mem_filter, Bool.not_eq_true', beq_eq_false_iff_ne] at hr
          intro hre
          exact hr.2 (by rw [hre])

/-- C2, witness: in `claimDb` the administrator verifies user 2; the reply is 200. -/
theorem verifyUser_success_witness :
    (verifyUser asciiEnv claimDb 300 (.valid ⟨1, .admin⟩) (js "2")).1.status = 200 ∧
      ∃ u : Nat, asciiEnv.int4In (js "2") = some (u : Int) ∧
        (∀ x ∈ (verifyUser asciiEnv claimDb 300 (.valid ⟨1, .admin⟩) (js "2")).2.users, x.id ≠ u) :=
  ⟨by decide,
    (verifyUser_success asciiEnv claimDb 300 (.valid ⟨1, .admin⟩) (js "2") (by decide)).imp
      fun _ hu => ⟨hu.1, hu.2.1⟩⟩

/-- C3, counterexample: in `claimDb` no `users` row has the id 2147483648, and the
administrator's verify of `2147483648` is answered 500, not 404: the value is outside the
range of the `INTEGER` column, the `SELECT` raises an error and the `catch` block answers. -/
theorem verifyUser_out_of_range_500 :
    (∀ x ∈ claimDb.users, ¬ (x.id = 2147483648 ∧ x.role = .normal_user)) ∧
      (verifyUser asciiEnv claimDb 300 (.valid ⟨1, .admin⟩) (js "2147483648")).1 =
        .error 500 "Internal server error during verification." ∧
      (verifyUser asciiEnv claimDb 300 (.valid ⟨1, .admin⟩) (js "2147483648")).1.status ≠ 404 := by
  decide

/-- C3, amended: a verify that does not answer 200 leaves `users`, `stores` and `ratings` as
they were, whatever the id.  For an administrator's request: (a) when the server reads the
id as an integer and no `users` row has that id with role `normal_user`, the reply is the
404 not-eligible error and the state is unchanged; when the server does not read the id as
an integer, the reply is the 500 internal error and the state is unchanged; (b) when the id
is read as an integer, a `users` row has it with role `normal_user` and the email of each
such row is held by a `stores` row, the reply is the 500 internal error and the three tables
are unchanged, so the `users` row is still there with its `claim_status` and no `stores` row
was added. -/
theorem verifyUser_failure (env : Env) (db : DB) (now : Nat) (auth : Credentials)
    (adminId : Nat) (id : JSString) :
    ((verifyUser env db now auth id).1.status ≠ 200 →
        (verifyUser env db now auth id).2.users = db.users ∧
          (verifyUser env db now auth id).2.stores = db.stores ∧
          (verifyUser env db now auth id).2.ratings = db.ratings) ∧
      (∀ key : Int, env.int4In id = some key →
        (∀ x ∈ db.users, ¬ ((x.id : Int) = key ∧ x.role = .normal_user)) →
        verifyUser env db now (.valid ⟨adminId, .admin⟩) id =
          (.error 404 "Normal user not found or is not eligible for verification.", db)) ∧
      (env.int4In id = none →
        verifyUser env db now (.valid ⟨adminId, .admin⟩) id =
          (.error 500 "Internal server error during verification.", db)) ∧
      (∀ key : Int, env.int4In id = some key →
        (∃ x ∈ db.users, (x.id : Int) = key ∧ x.role = .normal_user) →
        (∀ x ∈ db.users, (x.id : Int) = key → x.role = .normal_user →
          ∃ st ∈ db.stores, st.email = x.email) →
        (verifyUser env db now (.valid ⟨adminId, .admin⟩) id).1 =
            .error 500 "Internal server error during verification." ∧
          (verifyUser env db now (.valid ⟨adminId, .admin⟩) id).2.users = db.users ∧
          (verifyUser env db now (.valid ⟨adminId, .admin⟩) id).2.stores = db.stores ∧
          (verifyUser env db now (.valid ⟨adminId, .admin⟩) id).2.ratings = db.ratings) := by
  refine ⟨?_, ?_, ?_, ?_⟩
  · intro h
    unfold verifyUser guarded at h ⊢
    cases auth with
    | missing => exact ⟨rfl, rfl, rfl⟩
    | invalid => exact ⟨rfl, rfl, rfl⟩
    | valid tok =>
      simp only at h ⊢
      by_cases hrole : ([Role.admin].contains tok.role) = true
      · simp only [hrole, if_true] at h ⊢
        cases hk : env.int4In id with
        | none => exact ⟨rfl, rfl, rfl⟩
        | some key =>
          simp only [hk] at h ⊢
          cases hf : db.users.filter
              (fun x => (x.id : Int) == key && x.role == Role.normal_user) with
          | nil => exact ⟨rfl, rfl, rfl⟩
          | cons user rest =>
            simp only [hf] at h ⊢
            cases hi : insertStore db user.name user.email user.password user.address
                Role.store_owner now with
            | mk db1 res =>
              cases res with
              | none => simp [rollback]
              | some row => simp [hi, Reply.status] at h
      · rw [if_neg hrole]
        exact ⟨rfl, rfl, rfl⟩
  · intro key hkey hno
    have hf : db.users.filter (fun x => (x.id : Int) == key && x.role == Role.normal_user) = [] := by
      rw [List.filter_eq_nil_iff]
      intro x hx
      simpa using hno x hx
    rw [verifyUser_admin env db now adminId id key hkey, hf]
  · intro hnone
    simp [verifyUser, guarded, hnone]
  · rintro key hkey ⟨x, hx, hxid, hxrole⟩ hall
    rw [verifyUser_admin env db now adminId id key hkey]
    cases hf : db.users.filter (fun x => (x.id : Int) == key && x.role == Role.normal_user) with
    | nil =>
      rw [List.filter_eq_nil_iff] at hf
      have := hf x hx
      simp [hxid, hxrole] at this
    | cons user rest =>
      have hmem : user ∈ db.users.filter
          (fun x => (x.id : Int) == key && x.role == Role.normal_user) := by
        rw [hf]; exact List.mem_cons_self _ _
      obtain ⟨huser, hprop⟩ := List.mem_filter.mp hmem
      simp only [Bool.and_eq_true, beq_iff_eq] at hprop
      have hnone := insertStore_of_email_taken db user.name user.email user.password user.address
        Role.store_owner now (hall user huser hprop.1 hprop.2)
      cases hi : insertStore db user.name user.email user.password user.address
          Role.store_owner now with
      | mk db1 res =>
        rw [hi] at hnone
        simp only at hnone
        subst hnone
        simp [hi, rollback]

/-- C3, witness: in `claimDb` the id `9` is read as an integer that no user has, and the
administrator's verify answers 404 without a change; the id `abc` is not read as an integer,
and the verify answers 500 without a change; in `collisionDb` the store already holds the
email of user 2, and the verify of `2` answers 500 with the tables unchanged. -/
theorem verifyUser_failure_witness :
    asciiEnv.int4In (js "9") = some 9 ∧
      (∀ x ∈ claimDb.users, ¬ ((x.id : Int) = 9 ∧ x.role = .normal_user)) ∧
      verifyUser asciiEnv claimDb 300 (.valid ⟨1, .admin⟩) (js "9") =
        (.error 404 "Normal user not found or is not eligible for verification.", claimDb) ∧
      asciiEnv.int4In (js "abc") = none ∧
      verifyUser asciiEnv claimDb 300 (.valid ⟨1, .admin⟩) (js "abc") =
        (.error 500 "Internal server error during verification.", claimDb) ∧
      asciiEnv.int4In (js "2") = some 2 ∧
      (∃ x ∈ collisionDb.users, (x.id : Int) = 2 ∧ x.role = .normal_user) ∧
      (verifyUser asciiEnv collisionDb 300 (.valid ⟨1, .admin⟩) (js "2")).1 =
        .error 500 "Internal server error during verification." ∧
      (verifyUser asciiEnv collisionDb 300 (.valid ⟨1, .admin⟩) (js "2")).2.users =
        collisionDb.users ∧
      (verifyUser asciiEnv collisionDb 300 (.valid ⟨1, .admin⟩) (js "2")).2.stores =
        collisionDb.stores :=
  ⟨by decide, by decide,
    (verifyUser_failure asciiEnv claimDb 300 (.valid ⟨1, .admin⟩) 1 (js "9")).2.1 9 (by decide)
      (by decide),
    by decide,
    (verifyUser_failure asciiEnv claimDb 300 (.valid ⟨1, .admin⟩) 1 (js "abc")).2.2.1 (by decide),
    by decide, by decide,
    ((verifyUser_failure asciiEnv collisionDb 300 (.valid ⟨1, .admin⟩) 1 (js "2")).2.2.2 2
      (by decide) (by decide) (by decide)).1,
    ((verifyUser_failure asciiEnv collisionDb 300 (.valid ⟨1, .admin⟩) 1 (js "2")).2.2.2 2
      (by decide) (by decide) (by decide)).2.1,
    ((verifyUser_failure asciiEnv collisionDb 300 (.valid ⟨1, .admin⟩) 1 (js "2")).2.2.2 2
      (by decide) (by decide) (by decide)).2.2.1⟩

/-! ## Rating upsert -/

/-- C4, counterexample: store 1 exists, `ratings` is empty and no user has id 7 (a token
outlives its user); after two rating requests of subject 7 for store 1, with scores 3 and 5,
`ratings` holds no row for the pair, each insertion having failed on the reference to
`users`. -/
theorem rateTwice_unknown_user_no_row :
    (∃ st ∈ storeOnlyDb.stores, st.id = 1) ∧
      (storeOnlyDb.ratings.map fun q => (q.user_id, q.store_id)).Nodup ∧
      (rateTwice storeOnlyDb 300 400 7 1 3 5).ratings.filter
        (fun q => q.user_id == 7 && q.store_id == 1) = [] := by
  refine ⟨by decide, by decide, ?_⟩
  norm_num [rateTwice, postRatings, guarded, ratingRejected, JSValue.truthy, JSValue.toNumber,
    JSNumber.lt, pgInteger, upsertRating, storeOnlyDb]

theorem ratingRejected_intCast (x : Int) (h1 : 1 ≤ x) (h5 : x ≤ 5) :
    ratingRejected (.number (.finite (x : ℚ))) = false := by
  have e0 : (x : ℚ) ≠ 0 := by
    have : x ≠ 0 := by omega
    exact_mod_cast this
  have e1 : ¬ ((x : ℚ) < 1) := by
    have : ¬ (x < 1) := by omega
    exact_mod_cast this
  have e5 : ¬ ((5 : ℚ) < (x : ℚ)) := by
    have : ¬ (5 < x) := by omega
    exact_mod_cast this
  simp [ratingRejected, JSValue.truthy, JSValue.toNumber, JSNumber.lt, e0, e1, e5]

theorem pgInteger_intCast (x : Int) (h1 : 1 ≤ x) (h5 : x ≤ 5) :
    pgInteger (.number (.finite (x : ℚ))) = some x := by
  have hlo : (-2147483648 : Int) ≤ x := by omega
  have hhi : x ≤ (2147483647 : Int) := by omega
  simp [pgInteger, hlo, hhi]

/-- A rating request of a normal user with an integer score in 1..5 runs the upsert. -/
theorem postRatings_state (db : DB) (now r s : Nat) (x : Int) (h1 : 1 ≤ x) (h5 : x ≤ 5) :
    (postRatings db now (.valid ⟨r, .normal_user⟩) s (.number (.finite (x : ℚ)))).2 =
      (upsertRating db r s x now).1 := by
  unfold postRatings guarded
  simp only [ratingRejected_intCast x h1 h5, pgInteger_intCast x h1 h5]
  cases hu : upsertRating db r s x now with
  | mk db1 ok => cases ok <;> simp

theorem filter_pair_map_update (r s : Nat) (x : Int) (now : Nat) (l : List RatingRow) :
    (l.map (fun q => if q.user_id == r && q.store_id == s then
        { q with rating := x, updated_at := now } else q)).filter
        (fun q => q.user_id == r && q.store_id == s) =
      (l.filter (fun q => q.user_id == r && q.store_id == s)).map
        (fun q => { q with rating := x, updated_at := now }) := by
  induction l with
  | nil => rfl
  | cons a l ih =>
    by_cases h : (a.user_id == r && a.store_id == s) = true
    · simp only [List.map_cons, h, if_true, List.filter_cons, ih]
    · simp only [List.map_cons, h, if_false, List.filter_cons, ih, Bool.false_eq_true]

theorem filter_pair_length_le_one (r s : Nat) (l : List RatingRow)
    (h : (l.map fun q => (q.user_id, q.store_id)).Nodup) :
    (l.filter (fun q => q.user_id == r && q.store_id == s)).length ≤ 1 := by
  induction l with
  | nil => simp
  | cons a l ih =>
    rw [List.map_cons, List.nodup_cons] at h
    by_cases ha : (a.user_id == r && a.store_id == s) = true
    · have hnil : l.filter (fun q => q.user_id == r && q.store_id == s) = [] := by
        rw [List.filter_eq_nil_iff]
        intro q hq hqp
        simp only [Bool.and_eq_true, beq_iff_eq] at ha hqp
        apply h.1
        rw [List.mem_map]
        exact ⟨q, hq, by rw [hqp.1, hqp.2, ha.1, ha.2]⟩
      simp [List.filter_cons, ha, hnil]
    · simp only [List.filter_cons, ha, Bool.false_eq_true, if_false]
      exact ih h.2

/-- The upsert when the pair already has a row. -/
theorem upsertRating_conflict (db : DB) (r s : Nat) (x : Int) (now : Nat) (h1 : 1 ≤ x)
    (h5 : x ≤ 5) (hc : db.ratings.any (fun q => q.user_id == r && q.store_id == s) = true) :
    (upsertRating db r s x now).1.ratings =
        db.ratings.map (fun q => if q.user_id == r && q.store_id == s then
          { q with rating := x, updated_at := now } else q) ∧
      (upsertRating db r s x now).1.users = db.users ∧
      (upsertRating db r s x now).1.stores = db.stores := by
  unfold upsertRating
  simp only [h1, h5, decide_True, Bool.and_self, Bool.not_true, Bool.false_eq_true, if_false, hc,
    if_true, and_self]

/-- The upsert when the pair has no row, the key is free and both references resolve. -/
theorem upsertRating_insert (db : DB) (r s : Nat) (x : Int) (now : Nat) (h1 : 1 ≤ x)
    (h5 : x ≤ 5) (hc : db.ratings.any (fun q => q.user_id == r && q.store_id == s) = false)
    (hkey : ∀ q ∈ db.ratings, q.id ≠ db.ratings_id_seq) (hu : ∃ u ∈ db.users, u.id = r)
    (hs : ∃ st ∈ db.stores, st.id = s) :
    (upsertRating db r s x now).1.ratings =
      db.ratings ++ [⟨db.ratings_id_seq, r, s, x, now, now⟩] := by
  have hk : db.ratings.any (fun q => q.id == db.ratings_id_seq) = false := by
    rw [List.any_eq_false]
    intro q hq
    simpa using hkey q hq
  have hu1 : db.users.any (fun u => u.id == r) = true := by
    obtain ⟨u, hu, rfl⟩ := hu
    exact List.any_eq_true.mpr ⟨u, hu, by simp⟩
  have hs1 : db.stores.any (fun st => st.id == s) = true := by
    obtain ⟨st, hst, rfl⟩ := hs
    exact List.any_eq_true.mpr ⟨st, hst, by simp⟩
  unfold upsertRating
  simp only [h1, h5, decide_True, Bool.and_self, Bool.not_true, Bool.false_eq_true, if_false, hc,
    hk, hu1, hs1, Bool.or_self]

/-- C4, amended: in a state where store `s` exists, a `users` row has id `r`, every
`(user_id, store_id)` pair occurs at most once in `ratings`, no `ratings` key equals the
next value of the key sequence, and no `ratings` row was created after the time `t1` of the
first request, with the second request at a time `t2` not earlier than `t1`: after the
rating requests `(r, s, x)` and `(r, s, y)`, scores in 1..5, `ratings` holds exactly one row
for `(r, s)`, its score is `y` and its `updated_at` is not earlier than its `created_at`. -/
theorem rateTwice_one_row (db : DB) (t1 t2 r s : Nat) (x y : Int)
    (hstore : ∃ st ∈ db.stores, st.id = s) (huser : ∃ u ∈ db.users, u.id = r)
    (huniq : (db.ratings.map fun q => (q.user_id, q.store_id)).Nodup)
    (hkey : ∀ q ∈ db.ratings, q.id ≠ db.ratings_id_seq)
    (hclock : ∀ q ∈ db.ratings, q.created_at ≤ t1) (ht : t1 ≤ t2)
    (hx : 1 ≤ x ∧ x ≤ 5) (hy : 1 ≤ y ∧ y ≤ 5) :
    ∃ row, (rateTwice db t1 t2 r s x y).ratings.filter
        (fun q => q.user_id == r && q.store_id == s) = [row] ∧
      row.rating = y ∧ row.created_at ≤ row.updated_at := by
  unfold rateTwice
  rw [postRatings_state _ _ _ _ _ hy.1 hy.2, postRatings_state _ _ _ _ _ hx.1 hx.2]
  -- the rows of the pair after the first request: exactly one, created no later than `t1`
  have hfirst : ∃ row0, (upsertRating db r s x t1).1.ratings.filter
      (fun q => q.user_id == r && q.store_id == s) = [row0] ∧ row0.created_at ≤ t1 := by
    by_cases hc : db.ratings.any (fun q => q.user_id == r && q.store_id == s) = true
    · rw [(upsertRating_conflict db r s x t1 hx.1 hx.2 hc).1, filter_pair_map_update]
      have hlen := filter_pair_length_le_one r s db.ratings huniq
      obtain ⟨q, hq, hqp⟩ := List.any_eq_true.mp hc
      have hqmem : q ∈ db.ratings.filter (fun q => q.user_id == r && q.store_id == s) :=
        List.mem_filter.mpr ⟨hq, hqp⟩
      cases hf : db.ratings.filter (fun q => q.user_id == r && q.store_id == s) with
      | nil => rw [hf] at hqmem; cases hqmem
      | cons a rest =>
        rw [hf] at hlen
        have hrest : rest = [] := by
          cases rest with
          | nil => rfl
          | cons b rest2 => simp at hlen
        subst hrest
        have ha : a ∈ db.ratings := by
          have : a ∈ db.ratings.filter (fun q => q.user_id == r && q.store_id == s) := by
            rw [hf]; exact List.mem_cons_self _ _
          exact (List.mem_filter.mp this).1
        exact ⟨_, rfl, hclock a ha⟩
    · simp only [Bool.not_eq_true] at hc
      rw [upsertRating_insert db r s x t1 hx.1 hx.2 hc hkey huser hstore]
      have hnil : db.ratings.filter (fun q => q.user_id == r && q.store_id == s) = [] := by
        rw [List.filter_eq_nil_iff]
        intro q hq
        have := List.any_eq_false.mp hc q hq
        simpa using this
      refine ⟨⟨db.ratings_id_seq, r, s, x, t1, t1⟩, ?_, le_rfl⟩
      simp [List.filter_append, hnil, List.filter_cons]
  obtain ⟨row0, hrow0, hcreated⟩ := hfirst
  have hc2 : (upsertRating db r s x t1).1.ratings.any
      (fun q => q.user_id == r && q.store_id == s) = true := by
    have hmem : row0 ∈ (upsertRating db r s x t1).1.ratings.filter
        (fun q => q.user_id == r && q.store_id == s) := by
      rw [hrow0]; exact List.mem_cons_self _ _
    obtain ⟨h1, h2⟩ := List.mem_filter.mp hmem
    exact List.any_eq_true.mpr ⟨row0, h1, h2⟩
  rw [(upsertRating_conflict _ r s y t2 hy.1 hy.2 hc2).1, filter_pair_map_update, hrow0]
  exact ⟨_, rfl, rfl, le_trans hcreated ht⟩

/-- C4, witness: in `ratedDb` user 1 has rated store 1; the user rates it again with 3 and
then with 5. -/
theorem rateTwice_one_row_witness :
    (∃ st ∈ ratedDb.stores, st.id = 1) ∧ (∃ u ∈ ratedDb.users, u.id = 1) ∧
      ∃ row, (rateTwice ratedDb 300 400 1 1 3 5).ratings.filter
          (fun q => q.user_id == 1 && q.store_id == 1) = [row] ∧
        row.rating = 5 ∧ row.created_at ≤ row.updated_at :=
  ⟨by decide, by decide,
    rateTwice_one_row ratedDb 300 400 1 1 3 5 (by decide) (by decide) (by decide) (by decide)
      (by decide) (by decide) (by decide) (by decide)⟩

/-! ## The listing query -/

theorem leftJoin_eq_map {α β : Type} (l : List α) (r : List β) (cond : α → β → Bool)
    (h : ∀ a ∈ l, (r.filter (cond a)).length ≤ 1) :
    leftJoin l r cond = l.map fun a => (a, (r.filter (cond a)).head?) := by
  induction l with
  | nil => rfl
  | cons a l ih =>
    have hl : ∀ b ∈ l, (r.filter (cond b)).length ≤ 1 := fun b hb => h b (List.mem_cons_of_mem _ hb)
    have ih1 := ih hl
    unfold leftJoin at ih1 ⊢
    rw [List.flatMap_cons, ih1, List.map_cons]
    have ha := h a (List.mem_cons_self _ _)
    cases hf : r.filter (cond a) with
    | nil => rfl
    | cons b bs =>
      rw [hf] at ha
      cases bs with
      | nil => rfl
      | cons c cs => simp at ha

theorem filter_flatMap_of_const {α β : Type} (l : List α) (g : α → List β) (p : β → Bool)
    (m : α → Bool) (h : ∀ a ∈ l, ∀ b ∈ g a, p b = m a) :
    (l.flatMap g).filter p = (l.filter m).flatMap g := by
  induction l with
  | nil => rfl
  | cons a l ih =>
    have hl : ∀ x ∈ l, ∀ b ∈ g x, p b = m x := fun x hx => h x (List.mem_cons_of_mem _ hx)
    rw [List.flatMap_cons, List.filter_append, ih hl]
    have ha := h a (List.mem_cons_self _ _)
    by_cases hm : m a = true
    · have : (g a).filter p = g a := by
        rw [List.filter_eq_self]
        intro b hb
        rw [ha b hb, hm]
      rw [this, List.filter_cons_of_pos hm, List.flatMap_cons]
    · have : (g a).filter p = [] := by
        rw [List.filter_eq_nil_iff]
        intro b hb
        rw [ha b hb]
        exact hm
      rw [this, List.filter_cons_of_neg hm, List.nil_append]

theorem dedup_const_append {κ : Type} [DecidableEq κ] (x : κ) (b rest : List κ) (hb : b ≠ [])
    (hall : ∀ k ∈ b, k = x) (hx : x ∉ rest) : (b ++ rest).dedup = x :: rest.dedup := by
  induction b with
  | nil => exact absurd rfl hb
  | cons c b ih =>
    have hc : c = x := hall c (List.mem_cons_self _ _)
    subst hc
    have hall1 : ∀ k ∈ b, k = c := fun k hk => hall k (List.mem_cons_of_mem _ hk)
    cases b with
    | nil =>
      rw [List.singleton_append]
      exact List.dedup_cons_of_not_mem hx
    | cons d b1 =>
      have hmem : c ∈ (d :: b1) ++ rest := by
        rw [hall1 d (List.mem_cons_self _ _)]
        exact List.mem_append_left _ (List.mem_cons_self _ _)
      rw [List.cons_append, List.dedup_cons_of_mem hmem]
      exact ih (List.cons_ne_nil _ _) hall1

theorem dedup_flatMap_const {α κ : Type} [DecidableEq κ] (l : List α) (f : α → κ)
    (g : α → List κ) (hg : ∀ a ∈ l, g a ≠ [] ∧ ∀ k ∈ g a, k = f a) (hnd : (l.map f).Nodup) :
    (l.flatMap g).dedup = l.map f := by
  induction l with
  | nil => rfl
  | cons a l ih =>
    rw [List.map_cons, List.nodup_cons] at hnd
    have hl : ∀ x ∈ l, g x ≠ [] ∧ ∀ k ∈ g x, k = f x := fun x hx => hg x (List.mem_cons_of_mem _ hx)
    obtain ⟨hne, hall⟩ := hg a (List.mem_cons_self _ _)
    have hnot : f a ∉ l.flatMap g := by
      intro hmem
      obtain ⟨x, hx, hk⟩ := List.mem_flatMap.mp hmem
      apply hnd.1
      rw [(hl x hx).2 _ hk]
      exact List.mem_map_of_mem f hx
    rw [List.flatMap_cons, dedup_const_append (f a) (g a) _ hne hall hnot, ih hl hnd.2,
      List.map_cons]

theorem filter_flatMap_key {α β κ : Type} [DecidableEq κ] (l : List α) (g : α → List β)
    (key : β → κ) (f : α → κ) (hg : ∀ a ∈ l, ∀ b ∈ g a, key b = f a) (hnd : (l.map f).Nodup)
    (a : α) (ha : a ∈ l) :
    (l.flatMap g).filter (fun b => decide (key b = f a)) = g a := by
  induction l with
  | nil => cases ha
  | cons c l ih =>
    rw [List.map_cons, List.nodup_cons] at hnd
    have hl : ∀ x ∈ l, ∀ b ∈ g x, key b = f x := fun x hx => hg x (List.mem_cons_of_mem _ hx)
    have hrest_of_not_mem : ∀ y : α, f y ∉ l.map f →
        (l.flatMap g).filter (fun b => decide (key b = f y)) = [] := by
      intro y hy
      rw [List.filter_eq_nil_iff]
      intro b hb
      obtain ⟨x, hx, hbx⟩ := List.mem_flatMap.mp hb
      rw [decide_eq_true_eq, hl x hx b hbx]
      intro he
      apply hy
      rw [← he]
      exact List.mem_map_of_mem f hx
    rw [List.flatMap_cons, List.filter_append]
    rcases List.mem_cons.mp ha with rfl | hal
    · have h1 : (g a).filter (fun b => decide (key b = f a)) = g a := by
        rw [List.filter_eq_self]
        intro b hb
        rw [decide_eq_true_eq]
        exact hg a (List.mem_cons_self _ _) b hb
      rw [h1, hrest_of_not_mem a hnd.1, List.append_nil]
    · have h1 : (g c).filter (fun b => decide (key b = f a)) = [] := by
        rw [List.filter_eq_nil_iff]
        intro b hb
        rw [decide_eq_true_eq, hg c (List.mem_cons_self _ _) b hb]
        intro he
        apply hnd.1
        rw [he]
        exact List.mem_map_of_mem f hal
      rw [h1, List.nil_append, ih hl hnd.2 hal]

theorem ratingOptions_ne_nil (db : DB) (s : StoreRow) : ratingOptions db s ≠ [] := by
  unfold ratingOptions
  split <;> simp

theorem leftJoin_stores_ratings (db : DB) :
    leftJoin db.stores db.ratings (fun s q => s.id == q.store_id) =
      db.stores.flatMap fun s => (ratingOptions db s).map fun o => (s, o) := by
  unfold leftJoin
  apply List.flatMap_congr
  intro s _
  unfold ratingOptions
  beta_reduce
  cases db.ratings.filter (fun q => s.id == q.store_id) with
  | nil => rfl
  | cons b bs => simp

theorem viewer_filter_length_le_one (db : DB) (userId : Nat) (s : StoreRow)
    (huniq : (db.ratings.map fun q => (q.user_id, q.store_id)).Nodup) :
    (db.ratings.filter fun q => s.id == q.store_id && q.user_id == userId).length ≤ 1 := by
  have h := filter_pair_length_le_one userId s.id db.ratings huniq
  have e : db.ratings.filter (fun q => s.id == q.store_id && q.user_id == userId) =
      db.ratings.filter (fun q => q.user_id == userId && q.store_id == s.id) := by
    apply List.filter_congr
    intro q _
    rw [Bool.eq_iff_iff]
    simp only [Bool.and_eq_true, beq_iff_eq]
    constructor
    · rintro ⟨a, b⟩
      exact ⟨b, a.symm⟩
    · rintro ⟨a, b⟩
      exact ⟨b.symm, a⟩
  rw [e]
  exact h

/-- The double join, store by store: each store is paired with each of its ratings (or one
`NULL`) and, in every such row, with the same viewer row. -/
theorem joined_eq (db : DB) (userId : Nat)
    (huniq : (db.ratings.map fun q => (q.user_id, q.store_id)).Nodup) :
    leftJoin (leftJoin db.stores db.ratings fun s q => s.id == q.store_id) db.ratings
        (fun sr ur => sr.1.id == ur.store_id && ur.user_id == userId) =
      db.stores.flatMap fun s =>
        (ratingOptions db s).map fun o => ((s, o), viewerRow db userId s) := by
  rw [leftJoin_eq_map _ _ _ (fun a _ => viewer_filter_length_le_one db userId a.1 huniq),
    leftJoin_stores_ratings, List.map_flatMap]
  apply List.flatMap_congr
  intro s _
  rw [List.map_map]
  rfl

theorem sqlAvg_ratingOptions (db : DB) (s : StoreRow) :
    (sqlAvg ((ratingOptions db s).map fun o => o.map (·.rating))).getD ⟨0, 0⟩ =
      averageOrZero (storeScores db s.id) := by
  have e : db.ratings.filter (fun q => q.store_id == s.id) =
      db.ratings.filter (fun q => s.id == q.store_id) := by
    apply List.filter_congr
    intro q _
    rw [Bool.eq_iff_iff]
    simp only [beq_iff_eq]
    exact eq_comm
  unfold storeScores ratingOptions
  rw [e]
  cases hf : db.ratings.filter (fun q => s.id == q.store_id) with
  | nil => simp [sqlAvg, averageOrZero, List.reduceOption]
  | cons b bs =>
    have hred : (((b :: bs).map some).map fun o : Option RatingRow => o.map (·.rating)).reduceOption =
        (b :: bs).map (·.rating) := by
      rw [List.reduceOption_map]
      congr 1
      simp [List.reduceOption]
    simp only
    unfold sqlAvg
    rw [hred]
    simp [averageOrZero]

/-! ## The numeric average -/

theorem floor_half_up (m b scale : Nat) (hb : 0 < b) :
    ⌊((m : ℚ) / (b : ℚ)) * (10 : ℚ) ^ scale + 1 / 2⌋ =
      (((2 * m * 10 ^ scale + b) / (2 * b) : Nat) : Int) := by
  have hbq : (b : ℚ) ≠ 0 := by exact_mod_cast hb.ne'
  have e : ((m : ℚ) / (b : ℚ)) * (10 : ℚ) ^ scale + 1 / 2 =
      (((2 * m * 10 ^ scale + b : Nat) : Int) : ℚ) / ((2 * b : Nat) : ℚ) := by
    push_cast
    field_simp
    ring
  rw [e, Rat.floor_intCast_div_natCast, Int.natCast_div]

theorem roundHalfAway_sub_abs_le (x : ℚ) : |(roundHalfAway x : ℚ) - x| ≤ 1 / 2 := by
  unfold roundHalfAway
  by_cases h : 0 ≤ x
  · rw [if_pos h, abs_le]
    have h1 := Int.floor_le (x + 1 / 2)
    have h2 := Int.lt_floor_add_one (x + 1 / 2)
    constructor <;> linarith
  · rw [if_neg h, abs_le]
    have h1 := Int.floor_le (-x + 1 / 2)
    have h2 := Int.lt_floor_add_one (-x + 1 / 2)
    push_cast
    constructor <;> linarith

/-- The digits of the `numeric` quotient are the quotient scaled by the power of ten of its
scale and rounded, a half going away from zero. -/
theorem numericDiv_digits (a : Int) (b : Nat) (hb : 0 < b) :
    (numericDiv a b).digits =
      roundHalfAway (((a : ℚ) / (b : ℚ)) * (10 : ℚ) ^ selectDivScale a.natAbs b) := by
  have hbq : (0 : ℚ) < (b : ℚ) := by exact_mod_cast hb
  have hpow : (0 : ℚ) < (10 : ℚ) ^ selectDivScale a.natAbs b := by positivity
  unfold roundHalfAway
  by_cases ha : a < 0
  · have hq : ¬ (0 : ℚ) ≤ ((a : ℚ) / (b : ℚ)) * (10 : ℚ) ^ selectDivScale a.natAbs b := by
      have haq : (a : ℚ) < 0 := by exact_mod_cast ha
      have : ((a : ℚ) / (b : ℚ)) * (10 : ℚ) ^ selectDivScale a.natAbs b < 0 :=
        mul_neg_of_neg_of_pos (div_neg_of_neg_of_pos haq hbq) hpow
      exact not_le.mpr this
    have hna : ((a.natAbs : Nat) : ℚ) = -(a : ℚ) := by
      calc ((a.natAbs : Nat) : ℚ) = (((a.natAbs : Nat) : Int) : ℚ) := (Int.cast_natCast _).symm
        _ = ((-a : Int) : ℚ) := by rw [Int.ofNat_natAbs_of_nonpos ha.le]
        _ = -(a : ℚ) := Int.cast_neg a
    have e : -(((a : ℚ) / (b : ℚ)) * (10 : ℚ) ^ selectDivScale a.natAbs b) =
        ((a.natAbs : ℚ) / (b : ℚ)) * (10 : ℚ) ^ selectDivScale a.natAbs b := by
      rw [hna]
      ring
    rw [if_neg hq, e, floor_half_up _ _ _ hb]
    show (if a < 0 then _ else _) = _
    rw [if_pos ha]
  · have hq : (0 : ℚ) ≤ ((a : ℚ) / (b : ℚ)) * (10 : ℚ) ^ selectDivScale a.natAbs b := by
      have haq : (0 : ℚ) ≤ (a : ℚ) := by exact_mod_cast not_lt.mp ha
      exact mul_nonneg (div_nonneg haq hbq.le) hpow.le
    have hna : ((a.natAbs : Nat) : ℚ) = (a : ℚ) := by
      calc ((a.natAbs : Nat) : ℚ) = (((a.natAbs : Nat) : Int) : ℚ) := (Int.cast_natCast _).symm
        _ = (a : ℚ) := by rw [Int.natAbs_of_nonneg (not_lt.mp ha)]
    rw [if_pos hq, ← hna, floor_half_up _ _ _ hb]
    show (if a < 0 then _ else _) = _
    rw [if_neg ha]

theorem averageOrZero_scale (scores : List Int) (h : scores ≠ []) :
    (averageOrZero scores).scale = selectDivScale scores.sum.natAbs scores.length := by
  unfold averageOrZero
  rw [if_neg h]
  rfl

theorem averageOrZero_digits (scores : List Int) (h : scores ≠ []) :
    (averageOrZero scores).digits =
      roundHalfAway (meanOrZero scores *
        (10 : ℚ) ^ selectDivScale scores.sum.natAbs scores.length) := by
  have hlen : 0 < scores.length := List.length_pos.mpr h
  unfold averageOrZero meanOrZero
  rw [if_neg h, if_neg h]
  exact numericDiv_digits scores.sum scores.length hlen

/-- The value of the average the query computes is the mean rounded to the scale of the
`numeric` quotient. -/
theorem averageOrZero_value (scores : List Int) :
    (averageOrZero scores).value = meanRounded scores := by
  by_cases h : scores = []
  · subst h
    simp [averageOrZero, meanRounded, PgNumeric.value]
  · unfold PgNumeric.value meanRounded
    rw [if_neg h, averageOrZero_scale scores h, averageOrZero_digits scores h]

/-- The average the query computes is within half a unit of its last decimal place of the
exact mean. -/
theorem averageOrZero_near_mean (scores : List Int) :
    |(averageOrZero scores).value - meanOrZero scores| ≤
      1 / (2 * (10 : ℚ) ^ (averageOrZero scores).scale) := by
  by_cases h : scores = []
  · subst h
    norm_num [averageOrZero, meanOrZero, PgNumeric.value]
  · unfold PgNumeric.value
    rw [averageOrZero_scale scores h, averageOrZero_digits scores h]
    generalize selectDivScale scores.sum.natAbs scores.length = r
    have hp : (0 : ℚ) < (10 : ℚ) ^ r := by positivity
    have hr := roundHalfAway_sub_abs_le (meanOrZero scores * (10 : ℚ) ^ r)
    have e : (roundHalfAway (meanOrZero scores * (10 : ℚ) ^ r) : ℚ) / (10 : ℚ) ^ r -
          meanOrZero scores =
        ((roundHalfAway (meanOrZero scores * (10 : ℚ) ^ r) : ℚ) -
          meanOrZero scores * (10 : ℚ) ^ r) / (10 : ℚ) ^ r := by
      field_simp
      ring
    rw [e, abs_div, abs_of_pos hp, div_le_iff₀ hp]
    calc |(roundHalfAway (meanOrZero scores * (10 : ℚ) ^ r) : ℚ) -
          meanOrZero scores * (10 : ℚ) ^ r| ≤ 1 / 2 := hr
      _ = 1 / (2 * (10 : ℚ) ^ r) * (10 : ℚ) ^ r := by
        field_simp

/-- The rows of the listing, up to their order: one per store that passes the filter, with
the average of the store's scores as the query computes it and the rating of the viewer
row. -/
theorem storesQuery_rows (env : Env) (db : DB) (column direction : JSString) (userId : Nat)
    (pattern : JSString) (hpk : (db.stores.map (·.id)).Nodup)
    (huniq : (db.ratings.map fun q => (q.user_id, q.store_id)).Nodup) :
    (storesQuery env db column direction userId pattern).Perm
      ((db.stores.filter (matchesSearch env pattern)).map fun s =>
        { id := s.id
          name := s.name
          address := s.address
          average_rating := averageOrZero (storeScores db s.id)
          user_rating := (viewerRow db userId s).map (·.rating) }) := by
  unfold storesQuery
  refine (List.perm_insertionSort _ _).trans (List.Perm.of_eq ?_)
  rw [joined_eq db userId huniq]
  -- the rows of one store after both joins, and their grouping key
  let blk : StoreRow → List ((StoreRow × Option RatingRow) × Option RatingRow) := fun s =>
    (ratingOptions db s).map fun o => ((s, o), viewerRow db userId s)
  let key : (StoreRow × Option RatingRow) × Option RatingRow → Nat × Option Int := fun row =>
    (row.1.1.id, row.2.map (·.rating))
  let kf : StoreRow → Nat × Option Int := fun s => (s.id, (viewerRow db userId s).map (·.rating))
  have hblk : ∀ s, ∀ b ∈ blk s, b.1.1 = s ∧ b.2 = viewerRow db userId s := by
    intro s b hb
    obtain ⟨o, _, rfl⟩ := List.mem_map.mp hb
    exact ⟨rfl, rfl⟩
  have hblk_ne : ∀ s, blk s ≠ [] := by
    intro s h
    exact ratingOptions_ne_nil db s (List.map_eq_nil_iff.mp h)
  have hkey : ∀ s, ∀ b ∈ blk s, key b = kf s := by
    intro s b hb
    obtain ⟨h1, h2⟩ := hblk s b hb
    show (b.1.1.id, b.2.map (·.rating)) = (s.id, (viewerRow db userId s).map (·.rating))
    rw [h1, h2]
  -- the WHERE clause keeps the rows of the stores that pass the filter
  have hsel : (db.stores.flatMap blk).filter (fun row =>
      ilike env row.1.1.name pattern || ilike env row.1.1.address pattern) =
      (db.stores.filter (matchesSearch env pattern)).flatMap blk := by
    apply filter_flatMap_of_const
    intro s _ b hb
    rw [(hblk s b hb).1]
    rfl
  show List.filterMap _ (groupBy key ((db.stores.flatMap blk).filter _)) = _
  rw [hsel]
  generalize hS : db.stores.filter (matchesSearch env pattern) = S
  have hnd : (S.map kf).Nodup := by
    apply List.Nodup.of_map Prod.fst
    rw [List.map_map]
    have hsub : (S.map (·.id)).Sublist (db.stores.map (·.id)) := by
      rw [← hS]
      exact (List.filter_sublist _).map _
    exact hsub.nodup hpk
  -- one group per store
  have hkeys : ((S.flatMap blk).map key).dedup = S.map kf := by
    rw [List.map_flatMap]
    apply dedup_flatMap_const S kf (fun s => (blk s).map key) _ hnd
    intro s _
    refine ⟨fun h => hblk_ne s (List.map_eq_nil_iff.mp h), ?_⟩
    intro k hk
    obtain ⟨b, hb, rfl⟩ := List.mem_map.mp hk
    exact hkey s b hb
  have hgroups : groupBy key (S.flatMap blk) = S.map fun s => (kf s, blk s) := by
    unfold groupBy
    rw [hkeys, List.map_map]
    apply List.map_congr_left
    intro s hs
    show (kf s, (S.flatMap blk).filter (fun row => decide (key row = kf s))) = (kf s, blk s)
    rw [filter_flatMap_key S blk key kf (fun a _ b hb => hkey a b hb) hnd s hs]
  rw [hgroups, List.filterMap_map]
  refine Eq.trans (congrArg (fun f => List.filterMap f S) (funext fun s => ?_))
    (congrFun (List.filterMap_eq_map _) S)
  show (match blk s with
    | [] => none
    | row :: _ => some
        { id := row.1.1.id
          name := row.1.1.name
          address := row.1.1.address
          average_rating := (sqlAvg ((blk s).map
            fun (x : (StoreRow × Option RatingRow) × Option RatingRow) =>
              x.1.2.map RatingRow.rating)).getD ⟨0, 0⟩
          user_rating := (kf s).2 : StoreListing }) = _
  have havg : (blk s).map (fun (x : (StoreRow × Option RatingRow) × Option RatingRow) =>
      x.1.2.map RatingRow.rating) =
      (ratingOptions db s).map fun o => o.map (·.rating) := by
    show ((ratingOptions db s).map _).map _ = _
    rw [List.map_map]
    rfl
  rw [havg, sqlAvg_ratingOptions]
  cases hb : blk s with
  | nil => exact absurd hb (hblk_ne s)
  | cons row rest =>
    have hrow : row.1.1 = s := (hblk s row (by rw [hb]; exact List.mem_cons_self _ _)).1
    simp only [Function.comp, hrow]

/-- C7, counterexample: in `thirdsDb` store 1 has the scores 1, 1 and 2, store ids are
distinct and each `(user_id, store_id)` pair occurs once; the listing returns
`average_rating = 1.3333333333333333` for store 1, which is not the arithmetic mean 4/3. -/
theorem storesQuery_average_not_mean :
    (thirdsDb.ratings.map fun q => (q.user_id, q.store_id)).Nodup ∧
      ((storesQuery asciiEnv thirdsDb (js "name") (js "ASC") 1 (js "%%")).map fun row =>
        (row.id, row.average_rating)) = [(1, ⟨13333333333333333, 16⟩)] ∧
      (⟨13333333333333333, 16⟩ : PgNumeric).value ≠ meanOrZero (storeScores thirdsDb 1) := by
  refine ⟨by decide, by decide, ?_⟩
  have hs : storeScores thirdsDb 1 = [1, 1, 2] := by decide
  rw [hs]
  unfold meanOrZero PgNumeric.value
  rw [if_neg (List.cons_ne_nil _ _)]
  norm_num

/-- C7, amended: when the ids of `stores` are distinct (its primary key) and every
`(user_id, store_id)` pair occurs at most once in `ratings`, then for every viewer id,
pattern and ordering the listing query returns, up to the order of the rows, exactly one row
per store that passes the filter, carrying the store's id, name and address and, as
`average_rating`, the arithmetic mean of the scores of all the ratings of the store rounded,
a half going away from zero, to the number of decimal places of the database's `numeric`
quotient, or 0 when the store has no ratings; the `average_rating` of every row is within
half a unit of its last decimal place of the exact mean (0 when there is no rating). -/
theorem storesQuery_one_row_per_store (env : Env) (db : DB) (column direction : JSString)
    (userId : Nat) (pattern : JSString) (hpk : (db.stores.map (·.id)).Nodup)
    (huniq : (db.ratings.map fun q => (q.user_id, q.store_id)).Nodup) :
    ((storesQuery env db column direction userId pattern).map fun row =>
        (row.id, row.name, row.address, row.average_rating.value)).Perm
      ((db.stores.filter (matchesSearch env pattern)).map fun s =>
        (s.id, s.name, s.address, meanRounded (storeScores db s.id))) ∧
      ∀ row ∈ storesQuery env db column direction userId pattern,
        |row.average_rating.value - meanOrZero (storeScores db row.id)| ≤
          1 / (2 * (10 : ℚ) ^ row.average_rating.scale) := by
  have hrows := storesQuery_rows env db column direction userId pattern hpk huniq
  constructor
  · have h := hrows.map fun row => (row.id, row.name, row.address, row.average_rating.value)
    rw [List.map_map] at h
    refine h.trans (List.Perm.of_eq ?_)
    apply List.map_congr_left
    intro s _
    show (s.id, s.name, s.address, (averageOrZero (storeScores db s.id)).value) = _
    rw [averageOrZero_value]
  · intro row hrow
    obtain ⟨s, _, rfl⟩ := List.mem_map.mp (hrows.mem_iff.mp hrow)
    exact averageOrZero_near_mean (storeScores db s.id)

/-- C7, witness: in `aggregateDb`, with the pattern `%market%`, viewer 2 and the listing
sorted by name. -/
theorem storesQuery_one_row_per_store_witness :
    (aggregateDb.stores.map (·.id)).Nodup ∧
      (aggregateDb.ratings.map fun q => (q.user_id, q.store_id)).Nodup ∧
      ((storesQuery asciiEnv aggregateDb (js "name") (js "ASC") 2 (js "%market%")).map fun row =>
          (row.id, row.name, row.address, row.average_rating.value)).Perm
        ((aggregateDb.stores.filter (matchesSearch asciiEnv (js "%market%"))).map fun s =>
          (s.id, s.name, s.address, meanRounded (storeScores aggregateDb s.id))) :=
  ⟨by decide, by decide,
    (storesQuery_one_row_per_store asciiEnv aggregateDb (js "name") (js "ASC") 2 (js "%market%")
      (by decide) (by decide)).1⟩


end StoreRating
